import Mathlib

/-!
Verification of the intent-understanding and function-dispatch pipeline of the
todo-app repository: the call-notation parser (`src/parse_tool.js`), the
rule-based NLU engine (`src/nlu.js`), the dispatcher (`executeTool` plus the
sequential execution loop of `index.js`), and the record-store operations
(`src/tools.js`).

Modelling conventions:
* strings are `List Char` internally, wrapped into `String` at the interface;
* JS numbers are modelled as `Int` where the code only ever produces integral
  values (ids, extracted digit runs, parsed integer arguments), and as `ℚ`
  for the confidence arithmetic of the NLU engine;
* the host regular-expression engine is modelled by a small backtracking
  matcher (`reM`) with JS semantics: leftmost match, greedy/lazy quantifiers
  with backtracking, anchors, capture groups;
* `eval` applied to a bracketed argument list is modelled by a literal-only
  evaluator (`evalElems`): array/number/string/boolean/null literal
  expressions evaluate, everything else is treated as a thrown exception.
-/

set_option maxHeartbeats 1600000

namespace TodoApp

/-! ## Character helpers (JS regex character classes and literals) -/

/-- The double-quote character. -/
def quot : Char := Char.ofNat 34

/-- The single-quote character. -/
def apos : Char := Char.ofNat 39

/-- The opening curly brace character. -/
def lbrace : Char := Char.ofNat 123

/-- The closing curly brace character. -/
def rbrace : Char := Char.ofNat 125

/-- JS `\w`: ASCII letters, digits and underscore. -/
def isWordChar (c : Char) : Bool := c.isAlphanum || c = '_'

/-- JS `\s` restricted to the whitespace characters that can occur in the
modelled inputs. -/
def isSpaceChar (c : Char) : Bool := c = ' ' || c = '\t' || c = '\n' || c = '\r'

/-- Drop leading whitespace. -/
def trimL (l : List Char) : List Char := l.dropWhile isSpaceChar

/-- Drop trailing whitespace. -/
def trimR (l : List Char) : List Char := (l.reverse.dropWhile isSpaceChar).reverse

/-- JS `String.prototype.trim`. -/
def trim (l : List Char) : List Char := trimR (trimL l)

/-! ## Decimal integers: rendering and the numeric coercions of the parser -/

/-- Value of a decimal digit character. -/
def digitVal (c : Char) : Nat := c.toNat - 48

/-- Value of a string of decimal digits, most significant first. -/
def parseDigits (l : List Char) : Nat := l.foldl (fun a c => a * 10 + digitVal c) 0

/-- Decimal rendering of a natural number (fuelled; `natToChars` supplies
sufficient fuel). -/
def natToCharsAux : Nat → Nat → List Char
  | 0, _ => []
  | f + 1, n =>
    if n < 10 then [Char.ofNat (48 + n)]
    else natToCharsAux f (n / 10) ++ [Char.ofNat (48 + n % 10)]

/-- Decimal rendering of a natural number. -/
def natToChars (n : Nat) : List Char := natToCharsAux (n + 1) n

/-- Decimal rendering of an integer, as JS number-to-string produces for
integral values. -/
def renderInt (n : Int) : List Char :=
  if n < 0 then '-' :: natToChars n.natAbs else natToChars n.toNat

/-- Parse a non-empty all-digit string. -/
def digitsVal? (l : List Char) : Option Nat :=
  if l ≠ [] && l.all Char.isDigit then some (parseDigits l) else none

/-- Numeric literal: optional sign followed by digits.  This models the
integral fragment of JS numeric parsing; the source never produces
non-integral numerals in the behaviours verified here. -/
def jsNumLit? (t : List Char) : Option Int :=
  match t with
  | [] => none
  | c :: r =>
    if c = '-' then (digitsVal? r).map (fun n => -(n : Int))
    else if c = '+' then (digitsVal? r).map (fun n => (n : Int))
    else (digitsVal? (c :: r)).map (fun n => (n : Int))

/-- JS `!isNaN(t)` plus `Number(t)` on an already-trimmed token: the empty
string coerces to `0`, otherwise an integral numeral parses. -/
def jsNum? (t : List Char) : Option Int :=
  if t = [] then some 0 else jsNumLit? t

/-! ## JS values flowing through the parser and the tools -/

/-- Scalar dynamic values: the element type of parsed list arguments. -/
inductive JAtom where
  | astr (s : String)
  | anum (n : Int)
  | abool (b : Bool)
  | anull
deriving DecidableEq

/-- Dynamic values appearing as parsed tool-call arguments.  Lists are one
level deep, matching the `list-of-integer` argument type of the tool schemas
and the flat literal evaluator below. -/
inductive JVal where
  | vstr (s : String)
  | vnum (n : Int)
  | vbool (b : Bool)
  | vnull
  | vlist (l : List JAtom)
deriving DecidableEq

/-- Embed a scalar atom as a value. -/
def JAtom.toVal : JAtom → JVal
  | .astr s => .vstr s
  | .anum n => .vnum n
  | .abool b => .vbool b
  | .anull => .vnull

/-- Render a scalar atom in the call notation (strings double-quoted,
numbers in decimal, keyword literals). -/
def renderAtom : JAtom → List Char
  | .astr s => quot :: s.toList ++ [quot]
  | .anum n => renderInt n
  | .abool true => 't' :: 'r' :: 'u' :: 'e' :: []
  | .abool false => 'f' :: 'a' :: 'l' :: 's' :: 'e' :: []
  | .anull => 'n' :: 'u' :: 'l' :: 'l' :: []

/-- Join rendered pieces with a comma-and-space separator, as the synthesised
call notation does. -/
def sepJoin : List (List Char) → List Char
  | [] => []
  | [p] => p
  | p :: ps => p ++ ',' :: ' ' :: sepJoin ps

/-- Render one argument in the call notation. -/
def renderArg : JVal → List Char
  | .vlist l => '[' :: sepJoin (l.map renderAtom) ++ [']']
  | .vstr s => renderAtom (.astr s)
  | .vnum n => renderAtom (.anum n)
  | .vbool b => renderAtom (.abool b)
  | .vnull => renderAtom .anull

/-- Render an argument list in the call notation. -/
def renderArgs (args : List JVal) : List Char := sepJoin (args.map renderArg)

/-! ## The literal evaluator modelling `eval` on bracketed argument lists

`parse_tool.js` feeds `[` + paramsStr + `]` to the host `eval` when the
argument string contains `[` or `{`.  The model below evaluates exactly the
literal array/scalar expressions this pipeline is meant to exchange
(numbers, quoted strings without escapes, `true`/`false`/`null`, flat list
literals) and treats every other program as a thrown exception (`none`).
Host behaviours outside this fragment (arbitrary code execution, nested
arrays, sparse arrays, string escapes) are deliberately not modelled. -/

/-- Split a character stream at top-level commas, tracking quote state and
bracket depth; fails (`none`) on unbalanced quotes or brackets, as `eval`
would throw a syntax error. -/
def topSplitAux : List Char → Option Char → Nat → List Char → List (List Char) →
    Option (List (List Char))
  | [], none, 0, cur, acc => some ((cur.reverse :: acc).reverse)
  | [], _, _, _, _ => none
  | c :: rest, some q, d, cur, acc =>
    if c = q then topSplitAux rest none d (c :: cur) acc
    else topSplitAux rest (some q) d (c :: cur) acc
  | c :: rest, none, d, cur, acc =>
    if c = quot || c = apos then topSplitAux rest (some c) d (c :: cur) acc
    else if c = '[' || c = lbrace then topSplitAux rest none (d + 1) (c :: cur) acc
    else if c = ']' || c = rbrace then
      match d with
      | 0 => none
      | d' + 1 => topSplitAux rest none d' (c :: cur) acc
    else if c = ',' && d = 0 then topSplitAux rest none 0 [] (cur.reverse :: acc)
    else topSplitAux rest none d (c :: cur) acc

/-- Split a piece list at top-level commas. -/
def topSplit (p : List Char) : Option (List (List Char)) := topSplitAux p none 0 [] []

/-- Recognise a quoted string literal: at least two characters, the same
quote at both ends, no occurrence of that quote inside. -/
def stripLit? (t : List Char) : Option (List Char) :=
  match t with
  | c :: _ :: _ =>
    if (c = quot || c = apos) && t.getLast? = some c
        && ((t.drop 1).dropLast.all (fun x => !(x = c)))
    then some ((t.drop 1).dropLast) else none
  | _ => none

/-- Evaluate one scalar literal. -/
def parseAtomLit (piece : List Char) : Option JAtom :=
  let t := trim piece
  match stripLit? t with
  | some s => some (.astr (String.mk s))
  | none =>
    if t = 'n' :: 'u' :: 'l' :: 'l' :: [] then some .anull
    else if t = 't' :: 'r' :: 'u' :: 'e' :: [] then some (.abool true)
    else if t = 'f' :: 'a' :: 'l' :: 's' :: 'e' :: [] then some (.abool false)
    else (jsNumLit? t).map .anum

/-- Split on every comma (JS `String.prototype.split(',')`). -/
def splitComma : List Char → List (List Char)
  | [] => [[]]
  | c :: t =>
    if c = ',' then [] :: splitComma t
    else
      match splitComma t with
      | h :: r => (c :: h) :: r
      | [] => [[c]]

/-- Evaluate one element: a flat list literal or a scalar literal. -/
def parseElem (piece : List Char) : Option JVal :=
  let t := trim piece
  match t with
  | '[' :: more =>
    if more.getLast? = some ']' then
      let inner := more.dropLast
      if trim inner = [] then some (.vlist [])
      else ((splitComma inner).mapM parseAtomLit).map .vlist
    else none
  | _ => (parseAtomLit t).map JAtom.toVal

/-- Model of `eval` applied to `[` + p + `]`: the resulting element list, or
`none` for a thrown exception. -/
def evalElems (p : List Char) : Option (List JVal) :=
  match topSplit p with
  | none => none
  | some pieces => pieces.mapM parseElem

/-! ## The call-notation parser (`parseToolCall`, src/parse_tool.js) -/

/-- JS `part.startsWith(q) && part.endsWith(q)` (a single quote character
satisfies both). -/
def quoteWrap (q : Char) (part : List Char) : Bool :=
  part.head? = some q && part.getLast? = some q

/-- JS `part.slice(1, -1)`. -/
def quoteInner (part : List Char) : List Char := (part.drop 1).dropLast

/-- Argument coercion of the try-branch of `parseToolCall`: double- or
single-quoted strings, `null`, `true`/`false`, numbers, raw tokens; empty
tokens are skipped. -/
def tryCoerce (part : List Char) : Option JVal :=
  if quoteWrap quot part then some (.vstr (String.mk (quoteInner part)))
  else if quoteWrap apos part then some (.vstr (String.mk (quoteInner part)))
  else if part = 'n' :: 'u' :: 'l' :: 'l' :: [] then some .vnull
  else if part = 't' :: 'r' :: 'u' :: 'e' :: [] then some (.vbool true)
  else if part = 'f' :: 'a' :: 'l' :: 's' :: 'e' :: [] then some (.vbool false)
  else if part = [] then none
  else
    match jsNum? part with
    | some n => some (.vnum n)
    | none => some (.vstr (String.mk part))

/-- Argument coercion of the catch-branch of `parseToolCall`: only
double-quoted strings and numbers (`Number('')` is `0`), everything else
raw — no single quotes, no keywords, no empty-token skipping. -/
def catchCoerce (part : List Char) : JVal :=
  if quoteWrap quot part then .vstr (String.mk (quoteInner part))
  else
    match jsNum? part with
    | some n => .vnum n
    | none => .vstr (String.mk part)

/-- Coerce a captured argument string to values, as the body of the
registered-name branch of `parseToolCall` does. -/
def coerceParams (argstrRaw : List Char) : List JVal :=
  let p := trim argstrRaw
  if p = [] then []
  else if p.contains '[' || p.contains lbrace then
    match evalElems p with
    | some vs => vs
    | none => (splitComma p).map (fun t => catchCoerce (trim t))
  else (splitComma p).filterMap (fun t => tryCoerce (trim t))

/-- The scan loop of the regex `(\w+)\s*\(([^)]*)\)` with the `g` flag:
leftmost non-overlapping matches, each yielding the identifier run and the
argument capture.  Fuel is at least the input length plus one; every
iteration consumes at least one character. -/
def parseCallsAux : Nat → List Char → List (List Char × List Char)
  | 0, _ => []
  | _ + 1, [] => []
  | f + 1, c :: rest =>
    if isWordChar c then
      match (c :: rest).span isWordChar with
      | (run, after) =>
        match after.dropWhile isSpaceChar with
        | '(' :: tail =>
          (match tail.span (fun x => !(x = ')')) with
           | (argstr, ')' :: rest2) => (run, argstr) :: parseCallsAux f rest2
           | _ => [])
        | afterWs => parseCallsAux f afterWs
    else parseCallsAux f rest

/-- One parsed call: the identifier and the coerced positional arguments.
The source also stores the registry descriptor (`tool`); it is determined
by `functionName`, so it is not repeated here. -/
structure ParsedCall where
  functionName : String
  params : List JVal
deriving DecidableEq

/-- The names registered in `AVAILABLE_TOOLS` (available_tools.js), in
declaration order.  The JS property lookup is modelled as membership in the
declared names; prototype-chain properties of the host object are not
modelled. -/
def AVAILABLE_TOOLS : List String :=
  ["getAllTodos", "createTodo", "deleteTodoById", "deleteTodosByIds",
   "searchTodos", "updateTodo", "markTodoCompleted", "markTodoIncomplete",
   "getTodosByPriority", "getTodosByCategory", "getTodoStats",
   "clearCompleted", "getTodoById"]

/-- `parseToolCall` on a character list: scan for call spans, keep the
registered ones, coerce their arguments. -/
def parseToolCallL (text : List Char) : List ParsedCall :=
  (parseCallsAux (text.length + 1) text).filterMap fun rc =>
    if String.mk rc.1 ∈ AVAILABLE_TOOLS then
      some ⟨String.mk rc.1, coerceParams rc.2⟩
    else none

/-- `parseToolCall` (src/parse_tool.js). -/
def parseToolCall (text : String) : List ParsedCall := parseToolCallL text.toList

/-! ## A backtracking regular-expression engine with JS semantics

Leftmost match, greedy (`star`) and lazy (`starL`) quantifiers with
backtracking, alternation priority left to right, anchors, numbered capture
groups.  Case-insensitive literals (`litI`) model the `/i` flag. -/

/-- Regular-expression abstract syntax. -/
inductive RE where
  | eps
  | lit (c : Char)
  | cls (p : Char → Bool)
  | seq (a b : RE)
  | alt (a b : RE)
  | star (a : RE)
  | starL (a : RE)
  | group (i : Nat) (a : RE)
  | bos
  | eos

/-- Captures recorded so far, most recent first. -/
abbrev Caps := List (Nat × List Char)

/-- Case-insensitive literal (the `/i` flag); `c` is stored lower-cased. -/
def litI (c : Char) : RE := .cls (fun x => x.toLower = c)

/-- Greedy option `a?`. -/
def rOpt (a : RE) : RE := .alt a .eps

/-- One-or-more `a+` (greedy). -/
def rPlus (a : RE) : RE := .seq a (.star a)

/-- Sequence a list of regexes. -/
def seqL (l : List RE) : RE := l.foldr .seq .eps

/-- Alternate a list of regexes, left to right. -/
def altL : List RE → RE
  | [] => .eps
  | [r] => r
  | r :: rest => .alt r (altL rest)

/-- Case-insensitive literal word. -/
def strP (s : String) : RE := seqL (s.toList.map litI)

/-- The continuation-passing backtracking matcher.  State: remaining suffix,
absolute position, captures.  The fuel bounds the call depth; `reFuel`
below always supplies enough for the patterns and inputs of this
development. -/
def reM : Nat → RE → List Char → Nat → Caps →
    (List Char → Nat → Caps → Option (Nat × Caps)) → Option (Nat × Caps)
  | 0, _, _, _, _, _ => none
  | f + 1, r, s, pos, caps, k =>
    match r with
    | .eps => k s pos caps
    | .lit c =>
      match s with
      | [] => none
      | x :: xs => if x = c then k xs (pos + 1) caps else none
    | .cls p =>
      match s with
      | [] => none
      | x :: xs => if p x then k xs (pos + 1) caps else none
    | .seq a b => reM f a s pos caps (fun s' p' c' => reM f b s' p' c' k)
    | .alt a b =>
      match reM f a s pos caps k with
      | some res => some res
      | none => reM f b s pos caps k
    | .star a =>
      match reM f a s pos caps (fun s' p' c' =>
          if pos < p' then reM f (.star a) s' p' c' k else k s' p' c') with
      | some res => some res
      | none => k s pos caps
    | .starL a =>
      match k s pos caps with
      | some res => some res
      | none => reM f a s pos caps (fun s' p' c' =>
          if pos < p' then reM f (.starL a) s' p' c' k else none)
    | .group i a => reM f a s pos caps (fun s' p' c' =>
        k s' p' ((i, s.take (p' - pos)) :: c'))
    | .bos => if pos = 0 then k s pos caps else none
    | .eos => match s with | [] => k s pos caps | _ => none

/-- Structural size of a regex, used to compute sufficient fuel. -/
def sizeRE : RE → Nat
  | .eps => 1
  | .lit _ => 1
  | .cls _ => 1
  | .seq a b => sizeRE a + sizeRE b + 1
  | .alt a b => sizeRE a + sizeRE b + 1
  | .star a => sizeRE a + 1
  | .starL a => sizeRE a + 1
  | .group _ a => sizeRE a + 1
  | .bos => 1
  | .eos => 1

/-- Fuel: enough for any backtracking path over this pattern and suffix. -/
def reFuel (r : RE) (s : List Char) : Nat := (sizeRE r + 4) * (s.length + 4)

/-- Try to match `r` at exactly this position; returns end position and
captures of the preferred (JS) match. -/
def reTry (r : RE) (s : List Char) (pos : Nat) : Option (Nat × Caps) :=
  reM (reFuel r s) r s pos [] (fun _ p' c' => some (p', c'))

/-- Find the leftmost match at or after `pos`; returns (index, end,
captures). -/
def jsSearchAux (r : RE) : List Char → Nat → Option (Nat × Nat × Caps)
  | [], pos => (reTry r [] pos).map (fun q => (pos, q.1, q.2))
  | s@(_ :: xs), pos =>
    match reTry r s pos with
    | some (e, caps) => some (pos, e, caps)
    | none => jsSearchAux r xs (pos + 1)

/-- JS `text.match(re)` position data: leftmost match of `r` in `s`. -/
def jsSearch (r : RE) (s : List Char) : Option (Nat × Nat × Caps) :=
  jsSearchAux r s 0

/-- JS `re.test(text)`. -/
def jsTest (r : RE) (s : List Char) : Bool := (jsSearch r s).isSome

/-- Most recent value of capture group `i`. -/
def capGet (caps : Caps) (i : Nat) : Option (List Char) :=
  match caps with
  | [] => none
  | (j, v) :: rest => if j = i then some v else capGet rest i

/-- JS `text.replace(re, '')` without the `g` flag: remove the leftmost
match. -/
def jsReplaceFirst (r : RE) (s : List Char) : List Char :=
  match jsSearch r s with
  | some (i, e, _) => s.take i ++ s.drop e
  | none => s

/-- JS `text.replace(re, '')` with the `g` flag: remove every match,
scanning the original string left to right, advancing one character past
empty matches.  `s` is the suffix at absolute position `pos`. -/
def jsReplaceAllAux (r : RE) : Nat → List Char → Nat → List Char
  | 0, s, _ => s
  | f + 1, s, pos =>
    match jsSearchAux r s pos with
    | none => s
    | some (i, e, _) =>
      let kept := s.take (i - pos)
      if i < e then kept ++ jsReplaceAllAux r f (s.drop (e - pos)) e
      else
        match s.drop (i - pos) with
        | [] => s
        | c :: rest2 => kept ++ c :: jsReplaceAllAux r f rest2 (i + 1)

/-- JS global replace by the empty string. -/
def jsReplaceAll (r : RE) (s : List Char) : List Char :=
  jsReplaceAllAux r (s.length + 1) s 0

/-! ## NLU intent patterns (src/nlu.js, `intentPatterns`)

Each regex of the source is transcribed to the `RE` syntax.  All intent
patterns carry the `/i` flag, modelled with `litI`/`strP`; classes such as
`[,&and\s]` and `['""]` are transcribed literally (the source class
`['""]` contains a duplicated double quote). -/

/-- `\s` class. -/
def wsC : RE := .cls isSpaceChar

/-- `\s*`. -/
def ws0 : RE := .star wsC

/-- `\s+`. -/
def ws1 : RE := rPlus wsC

/-- `\w` class. -/
def wordC : RE := .cls isWordChar

/-- `\d` class. -/
def digC : RE := .cls Char.isDigit

/-- `.` (anything but a line terminator). -/
def dotC : RE := .cls (fun c => !(c = '\n' || c = '\r'))

/-- `['""]` class of the search patterns. -/
def quoteCls : RE := .cls (fun c => c = apos || c = quot)

/-- `[^'"]` class of the search patterns. -/
def notQuoteCls : RE := .cls (fun c => !(c = apos || c = quot))

/-- `(?:word\s+)?`. -/
def wOpt (w : String) : RE := rOpt (seqL [strP w, ws1])

/-- `todos?|tasks?|items?` - style alternatives with optional plural `s`. -/
def plur (w : String) : RE := seqL [strP w, rOpt (litI 's')]

/-- view pattern 1. -/
def reV1 : RE :=
  seqL [altL [strP "show", strP "list", strP "display", strP "get", strP "see",
              strP "view", strP "check",
              seqL [strP "what",
                    altL [seqL [litI apos, litI 's'],
                          seqL [ws1, strP "ar", rOpt (litI 'e')]],
                    ws1, rOpt (altL [strP "my", strP "the"])]],
        ws1, wOpt "me", wOpt "my", wOpt "all", wOpt "the",
        altL [plur "todo", plur "task", plur "item", strP "list", strP "things"]]

/-- view pattern 2. -/
def reV2 : RE :=
  seqL [strP "what",
        altL [seqL [litI apos, litI 's'], seqL [ws1, strP "ar", rOpt (litI 'e')]],
        ws1, wOpt "on", wOpt "my", wOpt "todo", strP "list"]

/-- view pattern 3. -/
def reV3 : RE :=
  seqL [strP "what", ws1, wOpt "do", wOpt "i", wOpt "have", wOpt "to", strP "do"]

/-- view pattern 4. -/
def reV4 : RE := seqL [strP "my", ws1, altL [plur "todo", plur "task", strP "list"]]

/-- view pattern 5. -/
def reV5 : RE :=
  seqL [strP "give", ws1, strP "me", ws1, wOpt "my",
        altL [plur "todo", plur "task", strP "list"]]

/-- view priority filter `high`. -/
def rePFhigh : RE :=
  altL [strP "high", strP "urgent", strP "important", strP "critical",
        strP "asap", strP "priority", strP "top"]

/-- view priority filter `medium`. -/
def rePFmed : RE :=
  altL [strP "medium", strP "normal", strP "regular", strP "standard"]

/-- view priority filter `low`. -/
def rePFlow : RE := altL [strP "low", strP "minor", strP "small", strP "least"]

/-- create pattern 1. -/
def reCr1 : RE :=
  seqL [altL [strP "add", strP "create", strP "make", strP "new", strP "insert",
              strP "put"],
        ws1, wOpt "a", wOpt "new",
        altL [strP "todo", strP "task", strP "item", strP "reminder"]]

/-- `i\s+(?:need\s+to|have\s+to|want\s+to|should|must)`. -/
def reIMust : RE :=
  seqL [strP "i", ws1,
        altL [seqL [strP "need", ws1, strP "to"], seqL [strP "have", ws1, strP "to"],
              seqL [strP "want", ws1, strP "to"], strP "should", strP "must"]]

/-- create pattern 2. -/
def reCr2 : RE := seqL [reIMust, ws1, .group 1 (rPlus dotC)]

/-- create pattern 3. -/
def reCr3 : RE :=
  seqL [strP "remind", ws1, strP "me", ws1, strP "to", ws1, .group 1 (rPlus dotC)]

/-- create pattern 4. -/
def reCr4 : RE :=
  seqL [altL [strP "todo", strP "task"], litI ':', ws0, .group 1 (rPlus dotC)]

/-- create pattern 5. -/
def reCr5 : RE :=
  seqL [strP "add", ws1, strP "to", ws1, wOpt "my", strP "list", ws0,
        rOpt (.cls (fun c => c = ':' || c = '-')), ws0, .group 1 (rPlus dotC)]

/-- delete pattern 1. -/
def reDe1 : RE :=
  seqL [altL [strP "delete", strP "remove", strP "del", strP "erase",
              seqL [strP "get", ws1, strP "rid", ws1, strP "of"], strP "eliminate"],
        ws1, rOpt (altL [strP "todo", strP "task", strP "item"]), ws0,
        rOpt (litI '#'), .group 1 (rPlus digC)]

/-- `[,&and\s]` class of delete pattern 2. -/
def reSepCls : RE :=
  .cls (fun c => c = ',' || c = '&' || c = 'a' || c = 'n' || c = 'd' || isSpaceChar c)

/-- delete pattern 2. -/
def reDe2 : RE :=
  seqL [altL [strP "delete", strP "remove", strP "del", strP "erase"], ws1,
        altL [plur "todo", plur "task", plur "item"], ws0, rOpt (litI '#'),
        .group 1 (seqL [rPlus digC,
                        .star (seqL [ws0, rPlus reSepCls, ws0, rPlus digC])])]

/-- delete pattern 3. -/
def reDe3 : RE :=
  seqL [altL [strP "cancel", seqL [strP "forget", ws1, strP "about"],
              strP "nevermind"],
        ws1, rOpt (altL [strP "todo", strP "task", strP "item"]), ws0,
        rOpt (litI '#'), .group 1 (rPlus digC)]

/-- `(?:todo|task|item|number)?\s*#?(\d+)` tail shared by several patterns. -/
def reIdTail : RE :=
  seqL [rOpt (altL [strP "todo", strP "task", strP "item", strP "number"]), ws0,
        rOpt (litI '#'), .group 1 (rPlus digC)]

/-- complete pattern 1. -/
def reCo1 : RE :=
  seqL [altL [strP "complete", strP "done", strP "finish", strP "finished",
              seqL [strP "mark", ws1, wOpt "as",
                    altL [strP "complete", strP "done", strP "finished"]]],
        ws1, reIdTail]

/-- complete pattern 2. -/
def reCo2 : RE :=
  seqL [altL [seqL [strP "i", ws1, altL [strP "completed", strP "finished", strP "did"]],
              seqL [strP "check", ws1, strP "off"]],
        ws1, reIdTail]

/-- complete pattern 3. -/
def reCo3 : RE :=
  seqL [altL [strP "todo", strP "task", strP "item", strP "number"], ws0,
        rOpt (litI '#'), .group 1 (rPlus digC), ws1, wOpt "is",
        altL [strP "complete", strP "done", strP "finished"]]

/-- complete pattern 4. -/
def reCo4 : RE :=
  seqL [altL [litI '✓', litI '✔', strP "check"], ws1, reIdTail]

/-- incomplete pattern 1. -/
def reIn1 : RE :=
  seqL [altL [strP "incomplete", strP "undone", strP "unfinish", strP "reopen",
              seqL [strP "mark", ws1, wOpt "as",
                    altL [strP "incomplete", strP "undone", strP "pending"]]],
        ws1, reIdTail]

/-- incomplete pattern 2. -/
def reIn2 : RE :=
  seqL [altL [strP "uncheck", strP "uncomplete"], ws1, reIdTail]

/-- update pattern 1. -/
def reUp1 : RE :=
  seqL [altL [strP "update", strP "edit", strP "change", strP "modify",
              strP "alter"],
        ws1, reIdTail]

/-- update pattern 2. -/
def reUp2 : RE :=
  seqL [strP "change", ws1,
        rOpt (altL [strP "todo", strP "task", strP "item", strP "number"]), ws0,
        rOpt (litI '#'), .group 1 (rPlus digC), ws1, strP "to", ws1,
        .group 2 (rPlus dotC)]

/-- `about|for|with|containing|related\s+to` connective of the search
patterns. -/
def reConn : RE :=
  altL [strP "about", strP "for", strP "with", strP "containing",
        seqL [strP "related", ws1, strP "to"]]

/-- search pattern 1. -/
def reSe1 : RE :=
  seqL [altL [strP "search", strP "find", seqL [strP "look", ws1, strP "for"],
              strP "locate"],
        ws1, rOpt (altL [plur "todo", plur "task", plur "item"]), ws0,
        rOpt reConn, ws0, rOpt quoteCls, .group 1 (rPlus notQuoteCls),
        rOpt quoteCls]

/-- search pattern 2. -/
def reSe2 : RE :=
  seqL [strP "find", ws1, wOpt "me", wOpt "all",
        altL [plur "todo", plur "task", plur "item"], ws1, reConn, ws0,
        rOpt quoteCls, .group 1 (rPlus notQuoteCls), rOpt quoteCls]

/-- search pattern 3. -/
def reSe3 : RE :=
  seqL [strP "what", ws1, altL [plur "todo", plur "task", plur "item"], ws1,
        rOpt (seqL [strP "do", ws1, strP "i", ws1, strP "have", ws1]), reConn,
        ws0, rOpt quoteCls, .group 1 (rPlus notQuoteCls), rOpt quoteCls]

/-- stats pattern 1. -/
def reSt1 : RE :=
  altL [strP "stats", strP "statistics", strP "summary", strP "overview",
        strP "report", seqL [strP "how", ws1, altL [strP "many", strP "much"]],
        strP "count"]

/-- stats pattern 2. -/
def reSt2 : RE :=
  seqL [strP "what",
        altL [seqL [litI apos, litI 's'], seqL [ws1, strP "is"]], ws1,
        strP "my", ws1, altL [strP "progress", strP "status"]]

/-- stats pattern 3. -/
def reSt3 : RE :=
  seqL [strP "show", ws1, strP "me", ws1, wOpt "my",
        altL [strP "stats", strP "statistics", strP "summary", strP "progress"]]

/-- clear pattern 1. -/
def reCl1 : RE :=
  seqL [altL [strP "clear", strP "clean", strP "remove", strP "delete"], ws1,
        wOpt "all", altL [strP "completed", strP "done", strP "finished"], ws0,
        rOpt (altL [plur "todo", plur "task", plur "item"])]

/-- clear pattern 2. -/
def reCl2 : RE :=
  seqL [altL [seqL [strP "clean", ws1, strP "up"], seqL [strP "tidy", ws1, strP "up"]],
        ws0, wOpt "my", altL [strP "list", plur "todo", plur "task"]]

/-! ## NLU extraction regexes (src/nlu.js) -/

/-- `extractCategory` direct-mention regex. -/
def reCatDirect : RE :=
  seqL [altL [strP "category", strP "tag", strP "type", strP "group",
              strP "about", strP "for", seqL [strP "related", ws1, strP "to"]],
        ws1, .group 1 (rPlus wordC)]

/-- `extractCategory` hashtag regex (no `/i` flag; `\w` is case-blind
anyway). -/
def reHashtag : RE := seqL [.lit '#', .group 1 (rPlus wordC)]

/-- `extractPriority` contextual high-urgency regex. -/
def rePrHigh : RE :=
  altL [strP "deadline", strP "urgent", strP "asap", strP "immediately",
        strP "now", strP "quickly", strP "soon"]

/-- `extractPriority` contextual deferral regex. -/
def rePrLow : RE :=
  altL [strP "eventually", strP "someday", strP "later", strP "whenever",
        seqL [strP "not", ws1, strP "urgent"]]

/-- `extractTodoText` step 1: leading command phrases (`/i`, first match
only). -/
def reTtCmd : RE :=
  seqL [.bos,
        altL [strP "add", strP "create", strP "make", strP "new", reIMust,
              seqL [strP "remind", ws1, strP "me", ws1, strP "to"],
              seqL [strP "todo", rOpt (litI ':')]],
        ws0]

/-- `extractTodoText` step 2: priority phrases (`/gi`). -/
def reTtPrio : RE :=
  seqL [ws0, rOpt (seqL [strP "with", ws1]),
        altL [strP "high", strP "medium", strP "low", strP "urgent",
              strP "important"],
        ws1, strP "priority", ws0]

/-- `extractTodoText` step 3: category phrases (`/gi`). -/
def reTtCat : RE :=
  seqL [ws0, altL [strP "category", strP "tag", strP "type", strP "group"],
        ws1, rPlus wordC, ws0]

/-- `extractTodoText` step 4: surrounding quotes (`/g`, no `/i`). -/
def reTtQuote : RE :=
  .alt (seqL [.bos, ws0, quoteCls]) (seqL [rOpt quoteCls, ws0, .eos])

/-- `extractSearchTerms` regex. -/
def reSearchTerms : RE :=
  seqL [altL [strP "search", strP "find", seqL [strP "look", ws1, strP "for"]],
        .starL dotC, rOpt reConn, ws0, rOpt quoteCls,
        .group 1 (rPlus notQuoteCls), rOpt quoteCls]

/-- update-intent replacement-text regex of
`extractIntentSpecificEntities`. -/
def reUpdateTo : RE :=
  seqL [altL [strP "change", strP "update", strP "edit"], .starL dotC,
        strP "to", ws1, .group 1 (rPlus dotC)]

/-! ## NLU engine (src/nlu.js, `AdvancedNLUEngine`) -/

/-- The classified intents, in the declaration order of `intentPatterns`. -/
inductive Intent where
  | view | create | delete | complete | incomplete | update | search | stats
  | clear
deriving DecidableEq

/-- Pattern list of each intent. -/
def intentPatterns : Intent → List RE
  | .view => [reV1, reV2, reV3, reV4, reV5]
  | .create => [reCr1, reCr2, reCr3, reCr4, reCr5]
  | .delete => [reDe1, reDe2, reDe3]
  | .complete => [reCo1, reCo2, reCo3, reCo4]
  | .incomplete => [reIn1, reIn2]
  | .update => [reUp1, reUp2]
  | .search => [reSe1, reSe2, reSe3]
  | .stats => [reSt1, reSt2, reSt3]
  | .clear => [reCl1, reCl2]

/-- The `priority_filters` table: only the view intent carries that key in
the source (the create intent's `priority_indicators` is never read by
`calculateConfidence`). -/
def priorityFilters : Intent → List RE
  | .view => [rePFhigh, rePFmed, rePFlow]
  | _ => []

/-- Position and length of one pattern match, as stored by
`matchPatterns`.  The capture data the source also records is consumed by
no later step, so it is not repeated here. -/
structure MatchInfo where
  index : Nat
  length : Nat
deriving DecidableEq

/-- `matchPatterns`: every pattern is tried; each first match is kept. -/
def matchPatterns (text : List Char) (pats : List RE) : List MatchInfo :=
  pats.filterMap fun p =>
    (jsSearch p text).map (fun r => ⟨r.1, r.2.1 - r.1⟩)

/-- JS `Math.min` on the rational model of JS numbers. -/
def mathMin (a b : ℚ) : ℚ := if a ≤ b then a else b

/-- A natural number as a rational (kept in the kernel-computable core
representation). -/
def natQ (n : Nat) : ℚ := mkRat (Int.ofNat n) 1

/-- Kernel-computable rational addition (the standard `+` on `ℚ` is sealed
behind `@[irreducible]`; `qadd_eq` below identifies the two). -/
def qadd (a b : ℚ) : ℚ := mkRat (a.num * b.den + b.num * a.den) (a.den * b.den)

/-- Kernel-computable rational multiplication. -/
def qmul (a b : ℚ) : ℚ := mkRat (a.num * b.num) (a.den * b.den)

/-- Kernel-computable rational inverse. -/
def qinv (a : ℚ) : ℚ := Rat.divInt (Int.ofNat a.den) a.num

/-- Kernel-computable rational division. -/
def qdiv (a b : ℚ) : ℚ := qmul a (qinv b)

/-- `calculateConfidence`: base score per matching pattern, average-length
boost capped at 0.4, 0.1 per matching priority filter, total capped at 1.
The JS float arithmetic is modelled exactly on `ℚ` through the
kernel-computable operations above. -/
def calculateConfidence (ms : List MatchInfo) (filters : List RE)
    (text : List Char) : ℚ :=
  let c1 : ℚ := qmul (natQ ms.length) (mkRat 3 10)
  let sums : ℚ := ms.foldl (fun s m => qadd s (natQ m.length)) (mkRat 0 1)
  let avg : ℚ := qdiv sums (natQ ms.length)
  let c2 : ℚ := qadd c1 (mathMin (qdiv avg (natQ text.length)) (mkRat 4 10))
  let c3 : ℚ :=
    filters.foldl (fun acc f => if jsTest f text then qadd acc (mkRat 1 10) else acc)
      c2
  mathMin c3 (mkRat 1 1)

/-- Substring test: does `needle` occur in the second argument (JS
`String.prototype.includes`)? -/
def startsWithL : List Char → List Char → Bool
  | [], _ => true
  | _ :: _, [] => false
  | a :: as, b :: bs => a = b && startsWithL as bs

/-- JS `hay.includes(needle)`. -/
def containsSub (needle : List Char) : List Char → Bool
  | [] => startsWithL needle []
  | c :: rest => startsWithL needle (c :: rest) || containsSub needle rest

/-- `contextKeywords.priorities`, in declaration order. -/
def priorityKeywords : List (String × List String) :=
  [("high", ["urgent", "important", "critical", "asap", "priority",
             "immediately", "soon", "quickly", "deadline"]),
   ("medium", ["medium", "normal", "regular", "standard", "default"]),
   ("low", ["low", "minor", "small", "least", "whenever", "eventually",
            "someday", "later"])]

/-- `contextKeywords.categories`, in declaration order. -/
def categoryKeywords : List (String × List String) :=
  [("work", ["work", "job", "office", "business", "meeting", "project",
             "deadline", "client"]),
   ("personal", ["personal", "self", "me", "myself", "private", "home"]),
   ("shopping", ["shopping", "buy", "purchase", "store", "market",
                 "groceries"]),
   ("health", ["health", "doctor", "medical", "appointment", "exercise",
               "fitness", "gym"]),
   ("study", ["study", "learn", "school", "education", "homework",
              "research", "read"]),
   ("home", ["home", "house", "clean", "organize", "fix", "repair",
             "maintenance"])]

/-- First keyword-table entry one of whose keywords occurs in the text. -/
def findKeyword : List (String × List String) → List Char → Option String
  | [], _ => none
  | (label, kws) :: rest, t =>
    if kws.any (fun k => containsSub k.toList t) then some label
    else findKeyword rest t

/-- `extractNumbers` models `text.match(/\b\d+\b/g)`: maximal digit runs
whose neighbours are not word characters, left to right.  State: whether
the previous character was a word character, and the pending digit run
(reversed). -/
def scanNumsAux : List Char → Bool → Option (List Char) → List Int
  | [], _, none => []
  | [], _, some run => [(parseDigits run.reverse : Int)]
  | c :: rest, prevW, none =>
    if c.isDigit && !prevW then scanNumsAux rest true (some [c])
    else scanNumsAux rest (isWordChar c) none
  | c :: rest, _, some run =>
    if c.isDigit then scanNumsAux rest true (some (c :: run))
    else if isWordChar c then scanNumsAux rest true none
    else (parseDigits run.reverse : Int) :: scanNumsAux rest false none

/-- `extractNumbers` (applied to the original, non-lower-cased text). -/
def extractNumbers (text : List Char) : List Int := scanNumsAux text false none

/-- `extractPriority`: keyword hit, else contextual regexes, else
`medium`. -/
def extractPriority (text : List Char) : String :=
  let cw := text.map Char.toLower
  match findKeyword priorityKeywords cw with
  | some p => p
  | none =>
    if jsTest rePrHigh text then "high"
    else if jsTest rePrLow text then "low"
    else "medium"

/-- `extractCategory`: direct mention, else hashtag, else keyword hit. -/
def extractCategory (text : List Char) : Option String :=
  let lowerText := text.map Char.toLower
  match jsSearch reCatDirect text with
  | some r => (capGet r.2.2 1).map String.mk
  | none =>
    match jsSearch reHashtag text with
    | some r => (capGet r.2.2 1).map String.mk
    | none => findKeyword categoryKeywords lowerText

/-- `extractTodoText`: strip command prefix, priority phrases, category
phrases and surrounding quotes, falling back to the whole trimmed text when
stripping empties the string. -/
def extractTodoText (text : List Char) : List Char :=
  let t1 := jsReplaceFirst reTtCmd text
  let t2 := jsReplaceAll reTtPrio t1
  let t3 := jsReplaceAll reTtCat t2
  let t4 := jsReplaceAll reTtQuote t3
  let r := trim t4
  if r = [] then trim text else r

/-- `extractSearchTerms`. -/
def extractSearchTerms (text : List Char) : Option String :=
  match jsSearch reSearchTerms text with
  | some r => (capGet r.2.2 1).map (fun l => String.mk (trim l))
  | none => none

/-- The analysis record produced by `analyzeIntent`.  The `context` flags
(`isQuestion` and friends) and the stored match objects are consumed by no
later step of the pipeline and are not modelled. -/
structure Analysis where
  originalText : String
  normalizedText : String
  primaryIntent : Option Intent
  confidence : ℚ
  numbers : List Int
  priorities : String
  categories : Option String
  todoText : Option String
  searchTerms : Option String
deriving DecidableEq

/-- Iteration order of the intent loop of `analyzeIntent` (object property
declaration order). -/
def intentOrder : List Intent :=
  [.view, .create, .delete, .complete, .incomplete, .update, .search, .stats,
   .clear]

/-- The intent-scoring loop of `analyzeIntent`: keep the strictly best
confidence, first intent on ties. -/
def pickIntent (norm : List Char) : Option Intent × ℚ :=
  intentOrder.foldl
    (fun best it =>
      let ms := matchPatterns norm (intentPatterns it)
      if ms.length > 0 then
        let conf := calculateConfidence ms (priorityFilters it) norm
        if conf > best.2 then (some it, conf) else best
      else best)
    (none, mkRat 0 1)

/-- Accumulator-destructured form of the intent-scoring loop, used to
evaluate `pickIntent` on concrete inputs. -/
def pickAux (norm : List Char) : List Intent → Option Intent → ℚ → Option Intent × ℚ
  | [], bi, bc => (bi, bc)
  | it :: rest, bi, bc =>
    let ms := matchPatterns norm (intentPatterns it)
    if ms.length > 0 then
      let conf := calculateConfidence ms (priorityFilters it) norm
      if conf > bc then pickAux norm rest (some it) conf
      else pickAux norm rest bi bc
    else pickAux norm rest bi bc

/-- `analyzeIntent` (src/nlu.js): normalise, score intents, extract
entities, then the intent-specific entities. -/
def analyzeIntent (text : String) : Analysis :=
  let t := text.toList
  let norm := trim (t.map Char.toLower)
  let pick := pickIntent norm
  let base : Analysis :=
    { originalText := text
      normalizedText := String.mk norm
      primaryIntent := pick.1
      confidence := pick.2
      numbers := extractNumbers t
      priorities := extractPriority t
      categories := extractCategory t
      todoText := none
      searchTerms := none }
  match pick.1 with
  | some .create => { base with todoText := some (String.mk (extractTodoText t)) }
  | some .search => { base with searchTerms := extractSearchTerms t }
  | some .update =>
    (match jsSearch reUpdateTo t with
     | some r =>
       { base with todoText := (capGet r.2.2 1).map (fun l => String.mk (trim l)) }
     | none => base)
  | _ => base

/-- JS `numbers.join(', ')` for the extracted integer ids. -/
def joinNums (l : List Int) : List Char := sepJoin (l.map renderInt)

/-- Wrap a string in double quotes, as the synthesised notation does. -/
def wrapStr (s : String) : List Char := quot :: s.toList ++ [quot]

/-- `generateFunctionCall` (src/nlu.js): synthesise a call-notation string
from an analysis, or `none`; suppressed entirely below confidence 0.3. -/
def generateFunctionCall (a : Analysis) : Option String :=
  if a.confidence < mkRat 3 10 then none
  else
    match a.primaryIntent with
    | some .view =>
      if a.priorities ≠ "medium" then
        some (String.mk ("getTodosByPriority(".toList ++ wrapStr a.priorities ++ [')']))
      else
        (match a.categories with
         | some c => some (String.mk ("getTodosByCategory(".toList ++ wrapStr c ++ [')']))
         | none => some "getAllTodos()")
    | some .create =>
      let t := match a.todoText with
               | some s => s
               | none => "null"
      let ps := [wrapStr t]
      let ps := if a.priorities ≠ "medium" then ps ++ [wrapStr a.priorities] else ps
      let ps := match a.categories with
                | some c => ps ++ [wrapStr c]
                | none => ps
      some (String.mk ("createTodo(".toList ++ sepJoin ps ++ [')']))
    | some .delete =>
      if a.numbers.length > 1 then
        some (String.mk ("deleteTodosByIds([".toList ++ joinNums a.numbers ++ ']' :: ')' :: []))
      else
        (match a.numbers with
         | [n] => some (String.mk ("deleteTodoById(".toList ++ renderInt n ++ [')']))
         | _ => none)
    | some .complete =>
      (match a.numbers with
       | n :: _ => some (String.mk ("markTodoCompleted(".toList ++ renderInt n ++ [')']))
       | [] => none)
    | some .incomplete =>
      (match a.numbers with
       | n :: _ => some (String.mk ("markTodoIncomplete(".toList ++ renderInt n ++ [')']))
       | [] => none)
    | some .update =>
      (match a.numbers with
       | n :: _ =>
         let ps := [renderInt n]
         let ps := match a.todoText with
                   | some s => ps ++ [wrapStr s]
                   | none => ps
         let ps := if a.priorities ≠ "medium"
                   then ps ++ ["null, ".toList ++ wrapStr a.priorities]
                   else ps
         let ps := match a.categories with
                   | some c => ps ++ ["null, null, ".toList ++ wrapStr c]
                   | none => ps
         some (String.mk ("updateTodo(".toList ++ sepJoin ps ++ [')']))
       | [] => none)
    | some .search =>
      (match a.searchTerms with
       | some s => some (String.mk ("searchTodos(".toList ++ wrapStr s ++ [')']))
       | none => none)
    | some .stats => some "getTodoStats()"
    | some .clear => some "clearCompleted()"
    | none => none

/-! ## The record store and its operations (src/tools.js)

The persisted table is modelled as a list of rows; timestamps are abstract
`Nat` instants, with the current instant passed explicitly where the source
calls `new Date()`.  `rowCount` of a delete/update is the number of rows
matched. -/

/-- One row of the todos table. -/
structure Todo where
  id : Int
  todo : String
  priority : String
  category : Option String
  completed : Bool
  created_at : Nat
  updated_at : Nat
  completed_at : Option Nat
deriving DecidableEq

/-- The record store. -/
abbrev Store := List Todo

/-- `deleteTodosByIds` (src/tools.js): guard non-arrays and the empty
array, otherwise delete every row whose id is among the given values and
return the deleted-row count. -/
def deleteTodosByIds (ids : JVal) (st : Store) : Nat × Store :=
  match ids with
  | .vlist l =>
    if l.length = 0 then (0, st)
    else
      let keep := st.filter (fun t => !(l.contains (JAtom.anum t.id)))
      (st.length - keep.length, keep)
  | _ => (0, st)

/-- `updateTodo` (src/tools.js): always touch `updated_at`; set the text
and priority only when the supplied value is truthy (JS: non-null and
non-empty); set the category whenever the supplied value is non-null,
including the empty string.  Returns whether any row matched. -/
def updateTodo (id : Int) (newText priority category : Option String)
    (now : Nat) (st : Store) : Bool × Store :=
  let st' := st.map fun t =>
    if t.id = id then
      { t with
        updated_at := now
        todo := match newText with
                | some s => if s = "" then t.todo else s
                | none => t.todo
        priority := match priority with
                    | some s => if s = "" then t.priority else s
                    | none => t.priority
        category := match category with
                    | some s => some s
                    | none => t.category }
    else t
  (st.any (fun t => t.id = id), st')

/-! ## The dispatcher (`executeTool` and the sequential loop, index.js)

A tool implementation consumes the positional arguments and the store and
either returns a value or raises an error message; in both cases it yields
the store it left behind.  `executeTool` wraps one call in the try/catch of
the source; the loop of `processUserInput` executes the parsed calls in
order, continuing past failures. -/

/-- A registered tool implementation. -/
def ToolImpl : Type := List JVal → Store → Except String JVal × Store

/-- One call to dispatch: name, arguments, and the resolved descriptor's
implementation. -/
structure ToolCall where
  functionName : String
  params : List JVal
  func : ToolImpl

/-- The per-call outcome record built by `executeTool`. -/
structure ExecResult where
  success : Bool
  result : Option JVal
  error : Option String
  functionName : String
  params : List JVal
deriving DecidableEq

/-- `executeTool` (index.js): run one call, catching a raised error into a
failure record. -/
def executeTool (st : Store) (tc : ToolCall) : ExecResult × Store :=
  match tc.func tc.params st with
  | (.ok v, st') =>
    ({ success := true, result := some v, error := none,
       functionName := tc.functionName, params := tc.params }, st')
  | (.error e, st') =>
    ({ success := false, result := none, error := some e,
       functionName := tc.functionName, params := tc.params }, st')

/-- The `for (const toolCall of toolCalls)` loop of `processUserInput`:
execute sequentially in input order, collecting one result per call. -/
def dispatchCalls : List ToolCall → Store → List ExecResult × Store
  | [], st => ([], st)
  | c :: cs, st =>
    let r := executeTool st c
    let rest := dispatchCalls cs r.2
    (r.1 :: rest.1, rest.2)


/-! ## Sample data used by witnesses -/

/-- A sample stored row. -/
def sampleTodo : Todo :=
  { id := 1, todo := "write spec", priority := "medium", category := some "work",
    completed := false, created_at := 0, updated_at := 0, completed_at := none }

/-- A tool implementation that always raises. -/
def failImpl : ToolImpl := fun _ st => (.error "boom", st)

/-- A tool implementation that always succeeds with `null`. -/
def okImpl : ToolImpl := fun _ st => (.ok .vnull, st)

/-! ## Well-formed argument values for the call-notation round trip

A string argument is well formed when its characters cannot interfere with
the notation: no `)` (the match would truncate), no quotes, no comma (the
naive split), no brackets or braces (the `eval` trigger), no backslash or
line terminator (string-literal escapes are not modelled). -/

/-- Characters allowed inside well-formed string arguments. -/
def wfChar (c : Char) : Bool :=
  !(c = ')' || c = quot || c = apos || c = ',' || c = '[' || c = ']' ||
    c = lbrace || c = rbrace || c = '\\' || c = '\n' || c = '\r')

/-- Well-formed scalar atom. -/
def wfAtom : JAtom → Bool
  | .astr s => s.toList.all wfChar
  | _ => true

/-- Well-formed argument value. -/
def wfArg : JVal → Bool
  | .vstr s => s.toList.all wfChar
  | .vlist l => l.all wfAtom
  | _ => true

/-- Scalar (non-list) argument value: every registered tool parameter other
than the id list of `deleteTodosByIds` has a scalar type. -/
def isScalarArg : JVal → Bool
  | .vlist _ => false
  | _ => true

/-! # Theorems -/

/-! ## Bridges between the kernel-computable rational operations and `ℚ` -/

/-- `qadd` is rational addition. -/
theorem qadd_eq (a b : ℚ) : qadd a b = a + b := (Rat.add_def' a b).symm

/-- `qmul` is rational multiplication. -/
theorem qmul_eq (a b : ℚ) : qmul a b = a * b := by
  rw [Rat.mul_def, Rat.normalize_eq_mkRat]; rfl

/-- `qinv` is rational inversion. -/
theorem qinv_eq (a : ℚ) : qinv a = a⁻¹ := (Rat.inv_def a).symm

/-- `qdiv` is rational division. -/
theorem qdiv_eq (a b : ℚ) : qdiv a b = a / b := by
  rw [qdiv, qmul_eq, qinv_eq, div_eq_mul_inv]

/-- `natQ` is the natural-number cast. -/
theorem natQ_eq (n : Nat) : natQ n = (n : ℚ) := by
  simp [natQ, Rat.mkRat_one]

/-- `mathMin` is the lattice minimum. -/
theorem mathMin_eq (a b : ℚ) : mathMin a b = min a b := (min_def a b).symm

/-- `mkRat` of a numerator and denominator is their division in `ℚ`. -/
theorem mkRat_eq_div' (n : Int) (d : Nat) : mkRat n d = (n : ℚ) / (d : ℚ) := by
  rw [Rat.mkRat_eq_divInt, Rat.divInt_eq_div]
  norm_num

/-- The fold of `pickIntent` agrees with `pickAux`. -/
theorem pickAux_eq (norm : List Char) (its : List Intent) :
    ∀ bi bc, its.foldl
      (fun best it =>
        let ms := matchPatterns norm (intentPatterns it)
        if ms.length > 0 then
          let conf := calculateConfidence ms (priorityFilters it) norm
          if conf > best.2 then (some it, conf) else best
        else best)
      (bi, bc) = pickAux norm its bi bc := by
  induction its with
  | nil => intro bi bc; rfl
  | cons it rest ih =>
    intro bi bc
    simp only [List.foldl, pickAux]
    by_cases h1 : (matchPatterns norm (intentPatterns it)).length > 0
    · simp only [h1, if_true]
      by_cases h2 : calculateConfidence (matchPatterns norm (intentPatterns it))
          (priorityFilters it) norm > bc
      · simp only [h2, if_true, ih]
      · simp only [h2, if_false, ih]
    · simp only [h1, if_false, ih]

/-- `pickIntent` through `pickAux`. -/
theorem pickIntent_eq (norm : List Char) :
    pickIntent norm = pickAux norm intentOrder none (mkRat 0 1) :=
  pickAux_eq norm intentOrder none (mkRat 0 1)


/-! ## The record-store guard claims -/

/-- Helper: the fields of `executeTool`'s result echo the call. -/
theorem executeTool_echo (st : Store) (tc : ToolCall) :
    (executeTool st tc).1.functionName = tc.functionName ∧
    (executeTool st tc).1.params = tc.params := by
  rcases h : tc.func tc.params st with ⟨r, st'⟩
  cases r <;> simp [executeTool, h]

/-- Claim C9: `deleteTodosByIds` applied to an argument that is not a list,
or to the empty list, returns count 0 and performs no deletion: the store
is unchanged. -/
theorem deleteTodosByIds_guard (v : JVal) (st : Store)
    (h : (∀ l, v ≠ JVal.vlist l) ∨ v = JVal.vlist []) :
    deleteTodosByIds v st = (0, st) := by
  rcases h with h | h
  · cases v with
    | vlist l => exact absurd rfl (h l)
    | vstr s => rfl
    | vnum n => rfl
    | vbool b => rfl
    | vnull => rfl
  · subst h; rfl

/-- Witness for C9: a number argument and the empty list, against a
non-empty store. -/
theorem deleteTodosByIds_guard_witness :
    deleteTodosByIds (JVal.vnum 3) [sampleTodo] = (0, [sampleTodo]) ∧
    deleteTodosByIds (JVal.vlist []) [sampleTodo] = (0, [sampleTodo]) :=
  ⟨deleteTodosByIds_guard _ _ (Or.inl fun _ h => JVal.noConfusion h),
   deleteTodosByIds_guard _ _ (Or.inr rfl)⟩

/-- Claim C10 counterexample: updating row 1 with empty text and an
EMPTY-STRING category modifies the category — a field whose supplied value
`""` is falsy — refuting "only the fields for which a truthy value was
supplied are modified". -/
theorem updateTodo_category_cex :
    ((updateTodo 1 (some "") none (some "") 5 [sampleTodo]).2.map Todo.category)
      = [some ""] ∧
    sampleTodo.category = some "work" ∧
    (some "" : Option String) ≠ some "work" := by decide

/-- Claim C10 (amended): for an existing id, empty (or null) text leaves
the text unchanged while still touching `updated_at` and returning `true`;
text and priority are modified only when the supplied value is truthy,
while category is modified whenever it is non-null, including the empty
string. -/
theorem updateTodo_empty_text (st : Store) (id : Int) (pr cat : Option String)
    (now : Nat) (txt : Option String) (htxt : txt = none ∨ txt = some "")
    (hex : st.any (fun t => t.id = id) = true) :
    updateTodo id txt pr cat now st =
      (true,
       st.map fun t =>
         if t.id = id then
           { t with
             updated_at := now
             priority := match pr with
                         | some s => if s = "" then t.priority else s
                         | none => t.priority
             category := match cat with
                         | some s => some s
                         | none => t.category }
         else t) := by
  rcases htxt with rfl | rfl <;> simp only [updateTodo, hex] <;> rfl

/-- Witness for C10 at a concrete store. -/
theorem updateTodo_empty_text_witness :
    updateTodo 1 (some "") (some "high") (some "") 5 [sampleTodo] =
      (true,
       [{ sampleTodo with
          updated_at := 5
          priority := "high"
          category := some "" }]) :=
  (updateTodo_empty_text [sampleTodo] 1 (some "high") (some "") 5 (some "")
    (Or.inr rfl) (by decide)).trans (by decide)

/-! ## The dispatcher claim -/

/-- Claim C2: the dispatcher executes the parsed calls sequentially in
input order, produces exactly one result per call in the same order (each
echoing the call's name and arguments), a failing call does not prevent the
remaining calls from executing, and each result captures either the tool's
return value or the raised error's message. -/
theorem dispatcher_sequential_isolated :
    (∀ calls st, (dispatchCalls calls st).1.length = calls.length) ∧
    (∀ calls st i, ((dispatchCalls calls st).1.get? i).map ExecResult.functionName
        = (calls.get? i).map ToolCall.functionName) ∧
    (∀ calls st i, ((dispatchCalls calls st).1.get? i).map ExecResult.params
        = (calls.get? i).map ToolCall.params) ∧
    (∀ c cs st, (dispatchCalls (c :: cs) st).1
        = (executeTool st c).1 :: (dispatchCalls cs (executeTool st c).2).1) ∧
    (∀ st tc v st', tc.func tc.params st = (Except.ok v, st') →
        executeTool st tc =
          ({ success := true
             result := some v
             error := none
             functionName := tc.functionName
             params := tc.params }, st')) ∧
    (∀ st tc e st', tc.func tc.params st = (Except.error e, st') →
        executeTool st tc =
          ({ success := false
             result := none
             error := some e
             functionName := tc.functionName
             params := tc.params }, st')) := by
  refine ⟨?_, ?_, ?_, ?_, ?_, ?_⟩
  · intro calls
    induction calls with
    | nil => intro st; rfl
    | cons c cs ih => intro st; simp [dispatchCalls, ih]
  · intro calls
    induction calls with
    | nil => intro st i; cases i <;> rfl
    | cons c cs ih =>
      intro st i
      cases i with
      | zero => simp [dispatchCalls, (executeTool_echo st c).1]
      | succ j => simpa [dispatchCalls] using ih (executeTool st c).2 j
  · intro calls
    induction calls with
    | nil => intro st i; cases i <;> rfl
    | cons c cs ih =>
      intro st i
      cases i with
      | zero => simp [dispatchCalls, (executeTool_echo st c).2]
      | succ j => simpa [dispatchCalls] using ih (executeTool st c).2 j
  · intro c cs st; rfl
  · intro st tc v st' h; simp [executeTool, h]
  · intro st tc e st' h; simp [executeTool, h]

/-- Witness for C2: a failing first call is captured as a failure record
and does not stop the succeeding second call. -/
theorem dispatcher_sequential_isolated_witness :
    executeTool [sampleTodo] ⟨"updateTodo", [JVal.vnum 7], failImpl⟩
      = ({ success := false
           result := none
           error := some "boom"
           functionName := "updateTodo"
           params := [JVal.vnum 7] }, [sampleTodo]) ∧
    (dispatchCalls [⟨"a", [], failImpl⟩, ⟨"b", [], okImpl⟩] []).1.length = 2 :=
  ⟨dispatcher_sequential_isolated.2.2.2.2.2 _ _ _ _ rfl,
   dispatcher_sequential_isolated.1 _ _⟩


/-! ## The confidence-formula claim -/

/-- Helper: the length-sum fold of `calculateConfidence` in `ℚ`. -/
theorem confSum_eq (l : List MatchInfo) :
    ∀ a : ℚ, l.foldl (fun s m => qadd s (natQ m.length)) a
      = a + (l.map fun m => (m.length : ℚ)).sum := by
  induction l with
  | nil => intro a; simp
  | cons m ms ih =>
    intro a
    rw [List.foldl_cons, ih]
    simp only [List.map, List.sum_cons, qadd_eq, natQ_eq]
    ring

/-- Helper: the filter-boost fold of `calculateConfidence` in `ℚ`. -/
theorem confBoost_eq (text : List Char) (fs : List RE) :
    ∀ a : ℚ, fs.foldl (fun acc f => if jsTest f text then qadd acc (mkRat 1 10) else acc) a
      = a + (1 / 10) * ((fs.filter fun f => jsTest f text).length : ℚ) := by
  induction fs with
  | nil => intro a; simp
  | cons f fs ih =>
    intro a
    rw [List.foldl_cons]
    by_cases h : jsTest f text = true
    · rw [if_pos h, ih]
      simp only [List.filter_cons, h, if_true, List.length_cons, qadd_eq, mkRat_eq_div']
      push_cast
      ring
    · rw [if_neg h, ih]
      simp [List.filter_cons, h]

/-- Claim C3: for an intent with at least one matching pattern, the
classifier's confidence equals
`min(1, 0.3 × matchCount + boost)` where
`boost = min(0.4, averageMatchedSpanLength / inputLength)` plus `0.1` for
each intent-specific priority-filter pattern that also matches. -/
theorem calculateConfidence_closed_form (ms : List MatchInfo) (filters : List RE)
    (text : List Char) (hms : ms ≠ []) (htext : text ≠ []) :
    calculateConfidence ms filters text =
      min 1 ((3 / 10) * (ms.length : ℚ) +
        (min ((((ms.map fun m => (m.length : ℚ)).sum) / (ms.length : ℚ)) / (text.length : ℚ))
             (4 / 10)
          + (1 / 10) * ((filters.filter fun f => jsTest f text).length : ℚ))) := by
  have h1 : (mkRat 0 1 : ℚ) = 0 := by norm_num [mkRat_eq_div']
  have h3 : (mkRat 3 10 : ℚ) = 3 / 10 := by norm_num [mkRat_eq_div']
  have h4 : (mkRat 4 10 : ℚ) = 4 / 10 := by norm_num [mkRat_eq_div']
  have hone : (mkRat 1 1 : ℚ) = 1 := by norm_num [mkRat_eq_div']
  simp only [calculateConfidence]
  rw [confSum_eq, confBoost_eq]
  simp only [qadd_eq, qmul_eq, qdiv_eq, natQ_eq, mathMin_eq, h1, h3, h4, hone,
    zero_add]
  rw [min_comm]
  congr 1
  ring

/-- Witness for C3: one match of length 1 on a one-character input and no
filters give confidence `min 1 (0.3 + min 1 0.4) = 0.7`. -/
theorem calculateConfidence_closed_form_witness :
    calculateConfidence [⟨0, 1⟩] [] ['a'] = 7 / 10 :=
  (calculateConfidence_closed_form [⟨0, 1⟩] [] ['a'] (by decide) (by decide)).trans
    (by norm_num)


/-! ## The extracted-numbers claim -/

/-- A digit is a word character. -/
theorem digit_isWord {c : Char} (h : c.isDigit = true) : isWordChar c = true := by
  simp [isWordChar, Char.isAlphanum, h]

/-- One scan step from a clean state. -/
theorem scanNums_step_none (c : Char) (xs : List Char) (pw : Bool) :
    scanNumsAux (c :: xs) pw none
      = if c.isDigit && !pw then scanNumsAux xs true (some [c])
        else scanNumsAux xs (isWordChar c) none := rfl

/-- One scan step with a pending digit run. -/
theorem scanNums_step_some (c : Char) (xs : List Char) (pw : Bool)
    (run : List Char) :
    scanNumsAux (c :: xs) pw (some run)
      = if c.isDigit then scanNumsAux xs true (some (c :: run))
        else if isWordChar c then scanNumsAux xs true none
        else (parseDigits run.reverse : Int) :: scanNumsAux xs false none := rfl

/-- Scanning a string whose last character is not a word character is
unaffected by what follows: the scan state at the boundary is clean. -/
theorem scan_append_state (u : List Char) :
    ∀ (tail : List Char) (prevW : Bool) (st : Option (List Char)), u ≠ [] →
      (∀ c, u.getLast? = some c → isWordChar c = false) →
      scanNumsAux (u ++ tail) prevW st
        = scanNumsAux u prevW st ++ scanNumsAux tail false none := by
  induction u with
  | nil => intro _ _ _ h; exact absurd rfl h
  | cons c u' ih =>
    intro tail prevW st _ hlast
    cases u' with
    | nil =>
      have hc : isWordChar c = false := hlast c rfl
      have hd : c.isDigit = false := by
        cases hdig : c.isDigit with
        | false => rfl
        | true => rw [digit_isWord hdig] at hc; exact absurd hc (by simp)
      cases st with
      | none =>
        rw [List.cons_append, scanNums_step_none, scanNums_step_none]
        simp [hd, hc, scanNumsAux]
      | some run =>
        rw [List.cons_append, scanNums_step_some, scanNums_step_some]
        simp [hd, hc, scanNumsAux]
    | cons d u'' =>
      have hlast' : ∀ e, (d :: u'').getLast? = some e → isWordChar e = false :=
        fun e he => hlast e he
      have ihx := fun tail prevW st => ih tail prevW st (by simp) hlast'
      cases st with
      | none =>
        rw [List.cons_append, scanNums_step_none, scanNums_step_none]
        by_cases h : (c.isDigit && !prevW) = true
        · rw [if_pos h, if_pos h, ihx]
        · rw [if_neg h, if_neg h, ihx]
      | some run =>
        rw [List.cons_append, scanNums_step_some, scanNums_step_some]
        by_cases h : c.isDigit = true
        · rw [if_pos h, if_pos h, ihx]
        · rw [if_neg h, if_neg h]
          by_cases hw : isWordChar c = true
          · rw [if_pos hw, if_pos hw, ihx]
          · rw [if_neg hw, if_neg hw, ihx, List.cons_append]

/-- Scanning a digit run with a pending accumulator up to a non-word
boundary emits the accumulated digits. -/
theorem scan_run_aux (ds : List Char) :
    ∀ (v : List Char) (acc : List Char), (∀ c ∈ ds, c.isDigit = true) →
      (∀ c, v.head? = some c → isWordChar c = false) →
      scanNumsAux (ds ++ v) true (some acc)
        = (parseDigits (acc.reverse ++ ds) : Int) :: scanNumsAux v false none := by
  induction ds with
  | nil =>
    intro v acc _ hv
    cases v with
    | nil => simp [scanNumsAux]
    | cons c rest =>
      have hc : isWordChar c = false := hv c rfl
      have hd : c.isDigit = false := by
        cases hdig : c.isDigit with
        | false => rfl
        | true => rw [digit_isWord hdig] at hc; exact absurd hc (by simp)
      simp [scanNumsAux, hd, hc]
  | cons d ds' ih =>
    intro v acc hds hv
    have hd : d.isDigit = true := hds d (by simp)
    have hx := ih v (d :: acc) (fun c hc => hds c (by simp [hc])) hv
    rw [List.cons_append, scanNums_step_some, if_pos hd, hx]
    congr 2
    simp

/-- Scanning a fresh digit run up to a non-word boundary emits its value. -/
theorem scan_run (run : List Char) (v : List Char) (hne : run ≠ [])
    (hds : ∀ c ∈ run, c.isDigit = true)
    (hv : ∀ c, v.head? = some c → isWordChar c = false) :
    scanNumsAux (run ++ v) false none
      = (parseDigits run : Int) :: scanNumsAux v false none := by
  cases run with
  | nil => exact absurd rfl hne
  | cons r rs =>
    have hr : r.isDigit = true := hds r (by simp)
    have := scan_run_aux rs v [r] (fun c hc => hds c (by simp [hc])) hv
    simpa [scanNumsAux, hr] using this

/-- Claim C8 counterexample: the digit run `7` in `todo7` is adjacent to a
letter, and the extractor — which models `\b\d+\b` — does NOT extract it,
while the claim requires `[7]`. -/
theorem extractNumbers_todo7_cex :
    extractNumbers "todo7".toList ≠ [(7 : Int)] ∧
    extractNumbers "todo7".toList = [] := by decide

/-- Claim C8 (amended): the extracted numbers are the maximal digit runs
whose neighbouring characters are not word characters (letters, digits,
underscore), in left-to-right order, each parsed as an integer; a digit run
adjacent to a word character is not extracted (`\b\d+\b`). -/
theorem extractNumbers_boundary_runs (u run v : List Char) (hne : run ≠ [])
    (hds : ∀ c ∈ run, c.isDigit = true)
    (hu : ∀ c, u.getLast? = some c → isWordChar c = false)
    (hv : ∀ c, v.head? = some c → isWordChar c = false) :
    extractNumbers (u ++ run ++ v)
      = extractNumbers u ++ (parseDigits run : Int) :: extractNumbers v := by
  cases u with
  | nil =>
    simpa [extractNumbers] using scan_run run v hne hds hv
  | cons a u' =>
    have h1 : extractNumbers ((a :: u') ++ (run ++ v))
        = scanNumsAux (a :: u') false none ++ scanNumsAux (run ++ v) false none :=
      scan_append_state (a :: u') (run ++ v) false none (by simp) hu
    calc extractNumbers ((a :: u') ++ run ++ v)
        = extractNumbers ((a :: u') ++ (run ++ v)) := by rw [List.append_assoc]
      _ = scanNumsAux (a :: u') false none ++ scanNumsAux (run ++ v) false none := h1
      _ = extractNumbers (a :: u') ++ (parseDigits run : Int) :: extractNumbers v := by
          rw [scan_run run v hne hds hv]; rfl

/-- Witness for C8: `"ab 42, cd7e"` decomposes around the run `42`, whose
neighbours are a space and a comma; the `7` inside `cd7e` is not
extracted. -/
theorem extractNumbers_boundary_runs_witness :
    extractNumbers ("ab ".toList ++ "42".toList ++ ", cd7e".toList)
      = extractNumbers "ab ".toList ++ (parseDigits "42".toList : Int)
          :: extractNumbers ", cd7e".toList :=
  extractNumbers_boundary_runs "ab ".toList "42".toList ", cd7e".toList
    (by decide) (by decide) (by decide) (by decide)


/-! ## The end-to-end scenario claims -/

/-- Full analysis of `"show me all my todos"`: the view intent wins with
confidence 0.7; the category extractor fires on the personal-category
keyword `me` (a substring of `show me`). -/
theorem analyze_show_eq :
    analyzeIntent "show me all my todos" =
      { originalText := "show me all my todos"
        normalizedText := "show me all my todos"
        primaryIntent := some .view
        confidence := mkRat 7 10
        numbers := []
        priorities := "medium"
        categories := some "personal"
        todoText := none
        searchTerms := none } := by decide

/-- Full analysis of `"add a todo to buy milk with high priority"`: the
create intent wins; the priority keyword `priority` maps to `high`, the
category keyword `buy` maps to `shopping`, and prefix stripping leaves
`a todo to buy milk`. -/
theorem analyze_milk_eq :
    analyzeIntent "add a todo to buy milk with high priority" =
      { originalText := "add a todo to buy milk with high priority"
        normalizedText := "add a todo to buy milk with high priority"
        primaryIntent := some .create
        confidence := mkRat 223 410
        numbers := []
        priorities := "high"
        categories := some "shopping"
        todoText := some "a todo to buy milk"
        searchTerms := none } := by decide

/-- Full analysis of `"delete todos 2, 3, 5"`: the delete intent wins with
confidence 0.7 and numbers `[2, 3, 5]`. -/
theorem analyze_delete_eq :
    analyzeIntent "delete todos 2, 3, 5" =
      { originalText := "delete todos 2, 3, 5"
        normalizedText := "delete todos 2, 3, 5"
        primaryIntent := some .delete
        confidence := mkRat 7 10
        numbers := [2, 3, 5]
        priorities := "medium"
        categories := none
        todoText := none
        searchTerms := none } := by decide

/-- Claim C4 counterexample: on the exact input `"show me all my todos"`
direct call synthesis does NOT produce `getAllTodos()`; it produces
`getTodosByCategory("personal")`, because the personal-category keyword
`me` substring-matches the input. -/
theorem show_all_todos_cex :
    generateFunctionCall (analyzeIntent "show me all my todos")
        ≠ some "getAllTodos()" ∧
    generateFunctionCall (analyzeIntent "show me all my todos")
        = some "getTodosByCategory(\"personal\")" := by
  rw [analyze_show_eq]
  exact ⟨by decide, by decide⟩

/-- Claim C4 (amended): on `"show me all my todos"` the classifier produces
primary intent View with confidence 0.7 > 0.3, but — because the category
extractor's personal keyword `me` matches — synthesis produces
`getTodosByCategory("personal")` rather than the unfiltered list call. -/
theorem show_all_todos_actual :
    (analyzeIntent "show me all my todos").primaryIntent = some .view ∧
    (analyzeIntent "show me all my todos").confidence = 7 / 10 ∧
    (3 / 10 : ℚ) < (analyzeIntent "show me all my todos").confidence ∧
    (analyzeIntent "show me all my todos").categories = some "personal" ∧
    generateFunctionCall (analyzeIntent "show me all my todos")
      = some "getTodosByCategory(\"personal\")" := by
  rw [analyze_show_eq]
  refine ⟨rfl, ?_, ?_, rfl, by decide⟩
  · norm_num [mkRat_eq_div']
  · norm_num [mkRat_eq_div']

/-- Claim C5 counterexample: on the exact input
`"add a todo to buy milk with high priority"` the extracted payload is NOT
`"buy milk"` (prefix stripping removes only `add `), and the synthesised
call is NOT `createTodo("buy milk", "high")`. -/
theorem add_milk_cex :
    (analyzeIntent "add a todo to buy milk with high priority").todoText
        ≠ some "buy milk" ∧
    generateFunctionCall (analyzeIntent "add a todo to buy milk with high priority")
        ≠ some "createTodo(\"buy milk\", \"high\")" := by
  rw [analyze_milk_eq]
  exact ⟨by decide, by decide⟩

/-- Claim C5 (amended): on `"add a todo to buy milk with high priority"`
the classifier produces intent Create with extracted priority `high`, but
the extracted payload is `"a todo to buy milk"` and the category keyword
`buy` also fires (`shopping`), so synthesis produces
`createTodo("a todo to buy milk", "high", "shopping")`. -/
theorem add_milk_actual :
    (analyzeIntent "add a todo to buy milk with high priority").primaryIntent
        = some .create ∧
    (analyzeIntent "add a todo to buy milk with high priority").priorities
        = "high" ∧
    (analyzeIntent "add a todo to buy milk with high priority").todoText
        = some "a todo to buy milk" ∧
    (analyzeIntent "add a todo to buy milk with high priority").categories
        = some "shopping" ∧
    generateFunctionCall (analyzeIntent "add a todo to buy milk with high priority")
      = some "createTodo(\"a todo to buy milk\", \"high\", \"shopping\")" := by
  rw [analyze_milk_eq]
  exact ⟨rfl, rfl, rfl, rfl, by decide⟩

/-- Claim C6: for every Delete-classified analysis at or above the
synthesis threshold, no extracted number yields no call, exactly one yields
`deleteTodoById(n)`, and more than one yields `deleteTodosByIds([...])`
listing the numbers in order; concretely, `"delete todos 2, 3, 5"`
synthesises `deleteTodosByIds([2, 3, 5])`. -/
theorem delete_synthesis :
    (∀ a : Analysis, a.primaryIntent = some .delete →
      (3 / 10 : ℚ) ≤ a.confidence →
      (a.numbers = [] → generateFunctionCall a = none) ∧
      (∀ n, a.numbers = [n] →
        generateFunctionCall a
          = some (String.mk ("deleteTodoById(".toList ++ renderInt n ++ [')']))) ∧
      (1 < a.numbers.length →
        generateFunctionCall a
          = some (String.mk ("deleteTodosByIds([".toList ++ joinNums a.numbers
              ++ ']' :: ')' :: [])))) ∧
    generateFunctionCall (analyzeIntent "delete todos 2, 3, 5")
      = some "deleteTodosByIds([2, 3, 5])" := by
  constructor
  · intro a hint hconf
    have h3 : (mkRat 3 10 : ℚ) = 3 / 10 := by norm_num [mkRat_eq_div']
    have hlt : ¬ (a.confidence < mkRat 3 10) := by rw [h3]; exact not_lt.2 hconf
    refine ⟨?_, ?_, ?_⟩
    · intro h0
      simp [generateFunctionCall, hint, hlt, h0]
    · intro n hn
      simp [generateFunctionCall, hint, hlt, hn]
    · intro hlen
      simp [generateFunctionCall, hint, hlt, hlen]
  · rw [analyze_delete_eq]; decide

/-- Witness for C6's hypotheses at the concrete delete scenario. -/
theorem delete_synthesis_witness :
    generateFunctionCall (analyzeIntent "delete todos 2, 3, 5")
      = some (String.mk ("deleteTodosByIds([".toList
          ++ joinNums (analyzeIntent "delete todos 2, 3, 5").numbers
          ++ ']' :: ')' :: [])) :=
  (delete_synthesis.1 (analyzeIntent "delete todos 2, 3, 5")
    (by rw [analyze_delete_eq])
    (by rw [analyze_delete_eq]; norm_num [mkRat_eq_div'])).2.2
    (by rw [analyze_delete_eq]; decide)


/-! ## Decimal round trip -/

/-- `parseDigits` over an appended digit. -/
theorem parseDigits_concat (xs : List Char) (c : Char) :
    parseDigits (xs ++ [c]) = 10 * parseDigits xs + digitVal c := by
  simp [parseDigits, List.foldl_append, Nat.mul_comm]

/-- The rendered digit of a value below ten. -/
theorem digitChar_spec (k : Nat) (h : k < 10) :
    (Char.ofNat (48 + k)).isDigit = true ∧ digitVal (Char.ofNat (48 + k)) = k := by
  interval_cases k <;> exact ⟨by decide, by decide⟩

/-- `natToCharsAux` with sufficient fuel: non-empty, all digits, and
`parseDigits` recovers the value. -/
theorem natToCharsAux_spec : ∀ f n, n < f →
    natToCharsAux f n ≠ [] ∧ (∀ c ∈ natToCharsAux f n, c.isDigit = true) ∧
      parseDigits (natToCharsAux f n) = n := by
  intro f
  induction f with
  | zero => intro n h; exact absurd h (by omega)
  | succ f ih =>
    intro n h
    by_cases h10 : n < 10
    · refine ⟨by simp [natToCharsAux, h10], ?_, ?_⟩
      · intro c hc
        simp only [natToCharsAux, h10, if_true, List.mem_singleton] at hc
        subst hc
        exact (digitChar_spec n h10).1
      · simp only [natToCharsAux, h10, if_true]
        have : parseDigits [Char.ofNat (48 + n)] = digitVal (Char.ofNat (48 + n)) := by
          simp [parseDigits]
        rw [this, (digitChar_spec n h10).2]
    · have hdiv : n / 10 < f := by omega
      obtain ⟨hne, hdig, hval⟩ := ih (n / 10) hdiv
      have hmod : n % 10 < 10 := Nat.mod_lt n (by omega)
      refine ⟨by simp [natToCharsAux, h10], ?_, ?_⟩
      · intro c hc
        simp only [natToCharsAux, h10, if_false, List.mem_append,
          List.mem_singleton] at hc
        rcases hc with hc | hc
        · exact hdig c hc
        · subst hc; exact (digitChar_spec _ hmod).1
      · simp only [natToCharsAux, h10, if_false]
        rw [parseDigits_concat, hval, (digitChar_spec _ hmod).2]
        omega

/-- `natToChars`: non-empty, all digits, value recovered. -/
theorem natToChars_spec (n : Nat) :
    natToChars n ≠ [] ∧ (∀ c ∈ natToChars n, c.isDigit = true) ∧
      parseDigits (natToChars n) = n :=
  natToCharsAux_spec (n + 1) n (by omega)

/-- Every character of a rendered integer is a digit or the minus sign. -/
theorem renderInt_chars (n : Int) :
    ∀ c ∈ renderInt n, c.isDigit = true ∨ c = '-' := by
  intro c hc
  unfold renderInt at hc
  split at hc
  · rw [List.mem_cons] at hc
    rcases hc with hc | hc
    · exact Or.inr hc
    · exact Or.inl ((natToChars_spec _).2.1 c hc)
  · exact Or.inl ((natToChars_spec _).2.1 c hc)

/-- A rendered integer is non-empty and starts with a digit or minus. -/
theorem renderInt_head (n : Int) :
    ∃ c cs, renderInt n = c :: cs ∧ (c.isDigit = true ∨ c = '-') := by
  have h := renderInt_chars n
  rcases he : renderInt n with _ | ⟨c, cs⟩
  · exfalso
    unfold renderInt at he
    split at he
    · exact List.noConfusion he
    · exact (natToChars_spec _).1 he
  · exact ⟨c, cs, rfl, h c (by rw [he]; simp)⟩

/-- `digitsVal?` on a rendered natural. -/
theorem digitsVal?_natToChars (m : Nat) : digitsVal? (natToChars m) = some m := by
  obtain ⟨hne, hdig, hval⟩ := natToChars_spec m
  simp [digitsVal?, hne, List.all_eq_true.2 hdig, hval]

/-- The numeric-literal parser recovers a rendered integer. -/
theorem jsNumLit?_renderInt (n : Int) : jsNumLit? (renderInt n) = some n := by
  by_cases hneg : n < 0
  · have h1 : renderInt n = '-' :: natToChars n.natAbs := by simp [renderInt, hneg]
    have h2 : jsNumLit? ('-' :: natToChars n.natAbs)
        = (digitsVal? (natToChars n.natAbs)).map (fun m => -(m : Int)) := by
      simp [jsNumLit?]
    rw [h1, h2, digitsVal?_natToChars]
    refine congrArg some ?_
    show -((n.natAbs : Nat) : Int) = n
    omega
  · have h1 : renderInt n = natToChars n.toNat := by simp [renderInt, hneg]
    obtain ⟨c, cs, hc, hcd⟩ : ∃ c cs, natToChars n.toNat = c :: cs ∧ c.isDigit = true := by
      rcases hx : natToChars n.toNat with _ | ⟨c, cs⟩
      · exact absurd hx (natToChars_spec _).1
      · exact ⟨c, cs, rfl, (natToChars_spec _).2.1 c (by rw [hx]; simp)⟩
    have hne1 : ¬ (c = '-') := fun h => absurd hcd (by subst h; decide)
    have hne2 : ¬ (c = '+') := fun h => absurd hcd (by subst h; decide)
    have h2 : jsNumLit? (c :: cs) = (digitsVal? (c :: cs)).map (fun m => (m : Int)) := by
      simp [jsNumLit?, hne1, hne2]
    rw [h1, hc, h2, ← hc, digitsVal?_natToChars]
    refine congrArg some ?_
    show ((n.toNat : Nat) : Int) = n
    omega

/-- A rendered integer parses as a number token. -/
theorem jsNum?_renderInt (n : Int) : jsNum? (renderInt n) = some n := by
  have hne : renderInt n ≠ [] := by
    obtain ⟨c, cs, hc, _⟩ := renderInt_head n
    rw [hc]; simp
  unfold jsNum?
  rw [if_neg hne, jsNumLit?_renderInt]


/-! ## The call-span scanner on a single rendered call -/

/-- `takeWhile` over a satisfying prefix followed by a failing character. -/
theorem takeWhile_all_append (p : Char → Bool) (l : List Char) (b : Char)
    (r : List Char) (hl : ∀ x ∈ l, p x = true) (hb : p b = false) :
    List.takeWhile p (l ++ b :: r) = l := by
  induction l with
  | nil => simp [hb]
  | cons x xs ih =>
    rw [List.cons_append, List.takeWhile_cons_of_pos (hl x (by simp)),
      ih (fun y hy => hl y (by simp [hy]))]

/-- `dropWhile` over a satisfying prefix followed by a failing character. -/
theorem dropWhile_all_append (p : Char → Bool) (l : List Char) (b : Char)
    (r : List Char) (hl : ∀ x ∈ l, p x = true) (hb : p b = false) :
    List.dropWhile p (l ++ b :: r) = b :: r := by
  induction l with
  | nil => simp [hb]
  | cons x xs ih =>
    rw [List.cons_append, List.dropWhile_cons_of_pos (hl x (by simp))]
    exact ih (fun y hy => hl y (by simp [hy]))

/-- `span` over a satisfying prefix followed by a failing character. -/
theorem span_all_append (p : Char → Bool) (l : List Char) (b : Char)
    (r : List Char) (hl : ∀ x ∈ l, p x = true) (hb : p b = false) :
    (l ++ b :: r).span p = (l, b :: r) := by
  rw [List.span_eq_take_drop, takeWhile_all_append p l b r hl hb,
    dropWhile_all_append p l b r hl hb]

/-- The scan loop on a single well-formed call span `name(args)`: one raw
call is produced, the identifier and the argument capture are exact. -/
theorem parseCallsAux_shape (f : Nat) (nm args : List Char) (hne : nm ≠ [])
    (hword : ∀ c ∈ nm, isWordChar c = true) (hargs : ')' ∉ args) :
    parseCallsAux (f + 2) (nm ++ '(' :: (args ++ [')'])) = [(nm, args)] := by
  cases nm with
  | nil => exact absurd rfl hne
  | cons c t =>
    have hc : isWordChar c = true := hword c (by simp)
    have hspan := span_all_append isWordChar (c :: t) '(' (args ++ [')'])
      hword (by decide)
    have hdrop : List.dropWhile isSpaceChar ('(' :: (args ++ [')']))
        = '(' :: (args ++ [')']) :=
      List.dropWhile_cons_of_neg (by decide)
    have hspan2 : (args ++ [')']).span (fun x => !(x = ')')) = (args, [')']) := by
      have : (args ++ ')' :: []).span (fun x => !(x = ')')) = (args, ')' :: []) :=
        span_all_append _ args ')' [] (fun x hx => by
          simp only [Bool.not_eq_true']
          exact decide_eq_false (fun hEq => hargs (hEq ▸ hx))) (by decide)
      simpa using this
    have hspan' : List.span isWordChar (c :: (t ++ ('(' :: (args ++ [')']))))
        = (c :: t, '(' :: (args ++ [')'])) := by
      rw [← List.cons_append]; exact hspan
    show parseCallsAux (f + 2) (c :: (t ++ ('(' :: (args ++ [')'])))) = [(c :: t, args)]
    simp only [parseCallsAux, hc, if_true, hspan', hdrop, hspan2]

/-! ## Trimming helpers -/

/-- A list whose head is not whitespace is unchanged by `trimL`. -/
theorem trimL_eq_self (x : List Char)
    (h : ∀ c, x.head? = some c → isSpaceChar c = false) : trimL x = x := by
  cases x with
  | nil => rfl
  | cons a t => exact List.dropWhile_cons_of_neg (by simp [h a rfl])

/-- A list whose last character is not whitespace is unchanged by `trimR`. -/
theorem trimR_eq_self (x : List Char)
    (h : ∀ c, x.getLast? = some c → isSpaceChar c = false) : trimR x = x := by
  unfold trimR
  rw [show x.reverse.dropWhile isSpaceChar = x.reverse from
    trimL_eq_self x.reverse (fun c hc => h c (by rwa [List.head?_reverse] at hc)),
    List.reverse_reverse]

/-- A list with non-whitespace ends is unchanged by `trim`. -/
theorem trim_eq_self (x : List Char)
    (h1 : ∀ c, x.head? = some c → isSpaceChar c = false)
    (h2 : ∀ c, x.getLast? = some c → isSpaceChar c = false) : trim x = x := by
  unfold trim
  rw [trimL_eq_self x h1, trimR_eq_self x h2]

/-- `trim` absorbs one leading space. -/
theorem trim_cons_space (x : List Char) : trim (' ' :: x) = trim x := by
  unfold trim
  rw [show trimL (' ' :: x) = trimL x from List.dropWhile_cons_of_pos (by decide)]

/-- The last element of an appended singleton. -/
theorem getLast?_append_singleton (l : List Char) (a : Char) :
    (l ++ [a]).getLast? = some a := by simp

/-- Dropping the last element of an appended singleton. -/
theorem dropLast_append_singleton (l : List Char) (a : Char) :
    (l ++ [a]).dropLast = l := by simp

/-- The last element behind a leading cons and an appended singleton. -/
theorem getLast?_cons_append_singleton (a : Char) (l : List Char) (b : Char) :
    (a :: (l ++ [b])).getLast? = some b := getLast?_append_singleton (a :: l) b

/-- The head, when present, is a member. -/
theorem mem_of_head?' (x : List Char) (c : Char) (h : x.head? = some c) :
    c ∈ x := by
  cases x with
  | nil => simp at h
  | cons a t =>
    simp only [List.head?_cons, Option.some.injEq] at h
    simp [h]

/-- The last element, when present, is a member. -/
theorem mem_of_getLast?' (x : List Char) (c : Char) (h : x.getLast? = some c) :
    c ∈ x := by
  have h1 : x.reverse.head? = some c := by rwa [List.head?_reverse]
  have h2 := mem_of_head?' x.reverse c h1
  rwa [List.mem_reverse] at h2

/-! ## Splitting at commas (JS `split`) -/

/-- A comma-free list is returned whole. -/
theorem splitComma_no_comma (x : List Char) (h : ∀ c ∈ x, ¬c = ',') :
    splitComma x = [x] := by
  induction x with
  | nil => rfl
  | cons c t ih =>
    simp only [splitComma, if_neg (h c (by simp))]
    rw [ih (fun d hd => h d (by simp [hd]))]

/-- Splitting distributes over the first comma. -/
theorem splitComma_append_comma (x y : List Char) (h : ∀ c ∈ x, ¬c = ',') :
    splitComma (x ++ ',' :: y) = x :: splitComma y := by
  induction x with
  | nil => simp [splitComma]
  | cons c t ih =>
    rw [List.cons_append]
    simp only [splitComma, if_neg (h c (by simp))]
    rw [ih (fun d hd => h d (by simp [hd]))]

/-- Splitting a comma-and-space join of comma-free pieces recovers the
pieces, the later ones with their separator space attached. -/
theorem splitComma_sepJoin (q : List Char) (qs : List (List Char))
    (h : ∀ r ∈ q :: qs, ∀ c ∈ r, ¬c = ',') :
    splitComma (sepJoin (q :: qs)) = q :: qs.map (fun x => ' ' :: x) := by
  induction qs generalizing q with
  | nil => exact splitComma_no_comma q (h q (by simp))
  | cons q' qs' ih =>
    show splitComma (q ++ ',' :: ' ' :: sepJoin (q' :: qs')) = _
    rw [splitComma_append_comma q _ (h q (by simp))]
    have hih := ih q' (fun r hr c hc => h r (by simp at hr ⊢; tauto) c hc)
    simp only [splitComma, if_neg (show ¬(' ' = ',') by decide)]
    rw [hih]
    simp

/-! ## Characters of rendered atoms -/

/-- A rendered integer contains no whitespace. -/
theorem renderInt_not_space (n : Int) :
    ∀ c ∈ renderInt n, isSpaceChar c = false := by
  intro c hc
  rcases renderInt_chars n c hc with h | h
  · simp only [isSpaceChar, Bool.or_eq_false_iff]
    refine ⟨⟨⟨?_, ?_⟩, ?_⟩, ?_⟩ <;>
      exact decide_eq_false (fun he => absurd (he ▸ h) (by decide))
  · subst h; decide

/-- The parser-significant characters never occur in a well-formed rendered
scalar atom, apart from the double quote delimiting strings. -/
theorem renderAtom_chars (a : JAtom) (ha : wfAtom a = true) :
    ∀ c ∈ renderAtom a, ¬c = ',' ∧ ¬c = ')' ∧ ¬c = '[' ∧ ¬c = ']' ∧
      ¬c = lbrace ∧ ¬c = rbrace ∧ ¬c = apos := by
  intro c hc
  cases a with
  | astr s =>
    simp only [renderAtom] at hc
    rw [List.mem_append, List.mem_cons, List.mem_singleton] at hc
    rcases hc with (rfl | hc) | rfl
    · decide
    · simp only [wfAtom, List.all_eq_true] at ha
      have hw := ha c hc
      simp only [wfChar, Bool.not_eq_true', Bool.or_eq_false_iff,
        decide_eq_false_iff_not] at hw
      tauto
    · decide
  | anum n =>
    rcases renderInt_chars n c hc with h | h
    · refine ⟨?_, ?_, ?_, ?_, ?_, ?_, ?_⟩ <;>
        exact fun he => absurd (he ▸ h) (by decide)
    · subst h; decide
  | abool b =>
    cases b <;> simp only [renderAtom, List.mem_cons, List.not_mem_nil,
        or_false] at hc <;> rcases hc with rfl | rfl | rfl | rfl | rfl <;> decide
  | anull =>
    simp only [renderAtom, List.mem_cons, List.not_mem_nil, or_false] at hc
    rcases hc with rfl | rfl | rfl | rfl <;> decide

/-- Rendered atoms have no leading or trailing whitespace, so `trim` leaves
them unchanged. -/
theorem trim_renderAtom (a : JAtom) : trim (renderAtom a) = renderAtom a := by
  cases a with
  | astr s =>
    refine trim_eq_self _ ?_ ?_
    · intro c hc
      have hh : (renderAtom (JAtom.astr s)).head? = some quot := rfl
      rw [hh] at hc
      injection hc with hc
      subst hc; decide
    · intro c hc
      have hh : (renderAtom (JAtom.astr s)).getLast? = some quot :=
        getLast?_append_singleton (quot :: s.toList) quot
      rw [hh] at hc
      injection hc with hc
      subst hc; decide
  | anum n =>
    refine trim_eq_self _ ?_ ?_
    · intro c hc
      exact renderInt_not_space n c (mem_of_head?' _ c hc)
    · intro c hc
      exact renderInt_not_space n c (mem_of_getLast?' _ c hc)
  | abool b => cases b <;> decide
  | anull => decide

/-! ## Atom-level round trips through the literal evaluator's pieces -/

/-- The head of a rendered integer is neither a quote nor a keyword
initial. -/
theorem renderInt_head_safe (n : Int) :
    ∃ c cs, renderInt n = c :: cs ∧ ¬c = quot ∧ ¬c = apos ∧ ¬c = 'n' ∧
      ¬c = 't' ∧ ¬c = 'f' := by
  obtain ⟨c, cs, hc, hd⟩ := renderInt_head n
  refine ⟨c, cs, hc, ?_, ?_, ?_, ?_, ?_⟩ <;>
    rcases hd with h | h <;>
    exact fun he => absurd (he ▸ h) (by decide)

/-- A rendered integer is not one of the keyword literals. -/
theorem renderInt_ne_kw (n : Int) :
    ¬renderInt n = 'n' :: 'u' :: 'l' :: 'l' :: [] ∧
    ¬renderInt n = 't' :: 'r' :: 'u' :: 'e' :: [] ∧
    ¬renderInt n = 'f' :: 'a' :: 'l' :: 's' :: 'e' :: [] := by
  obtain ⟨c, cs, hc, _, _, hn, ht, hf⟩ := renderInt_head_safe n
  refine ⟨?_, ?_, ?_⟩ <;> intro he <;> rw [hc] at he <;>
    injection he with h1 _
  · exact hn h1
  · exact ht h1
  · exact hf h1

/-- The quoted-literal recogniser recovers a string with no interior
delimiter. -/
theorem stripLit?_quot (s : List Char) (hs : ∀ c ∈ s, ¬c = quot) :
    stripLit? (quot :: s ++ [quot]) = some s := by
  cases s with
  | nil => decide
  | cons x s' =>
    have hdl : (x :: (s' ++ [quot])).dropLast = x :: s' :=
      dropLast_append_singleton (x :: s') quot
    have hlast : (quot :: x :: (s' ++ [quot])).getLast? = some quot :=
      getLast?_append_singleton (quot :: x :: s') quot
    have hall : (x :: s').all (fun y => !(y = quot)) = true :=
      List.all_eq_true.2 (fun y hy => by simpa using hs y (by simpa using hy))
    simp [stripLit?, hlast, hdl, hall]

/-- The quoted-literal recogniser rejects a rendered integer. -/
theorem stripLit?_renderInt (n : Int) : stripLit? (renderInt n) = none := by
  obtain ⟨c, cs, hc, hq, ha, _, _, _⟩ := renderInt_head_safe n
  rw [hc]
  cases cs with
  | nil => simp [stripLit?]
  | cons d cs' =>
    simp [stripLit?, hq, ha]

/-- The scalar-literal evaluator recovers every well-formed rendered atom. -/
theorem parseAtomLit_renderAtom (a : JAtom) (ha : wfAtom a = true) :
    parseAtomLit (renderAtom a) = some a := by
  cases a with
  | astr s =>
    have hs : ∀ c ∈ s.toList, ¬c = quot := by
      intro c hc
      simp only [wfAtom, List.all_eq_true] at ha
      have hw := ha c hc
      simp only [wfChar, Bool.not_eq_true', Bool.or_eq_false_iff,
        decide_eq_false_iff_not] at hw
      tauto
    simp only [parseAtomLit]
    rw [trim_renderAtom (.astr s),
      show renderAtom (.astr s) = quot :: s.toList ++ [quot] from rfl,
      stripLit?_quot s.toList hs]
    rfl
  | anum n =>
    obtain ⟨hnull, htrue, hfalse⟩ := renderInt_ne_kw n
    simp only [parseAtomLit]
    rw [trim_renderAtom (.anum n),
      show renderAtom (.anum n) = renderInt n from rfl, stripLit?_renderInt n]
    rw [if_neg hnull, if_neg htrue, if_neg hfalse, jsNumLit?_renderInt]
    rfl
  | abool b => cases b <;> decide
  | anull => decide

/-- The try-branch coercion recovers every well-formed rendered atom. -/
theorem tryCoerce_renderAtom (a : JAtom) (ha : wfAtom a = true) :
    tryCoerce (renderAtom a) = some a.toVal := by
  cases a with
  | astr s =>
    have hwrap : quoteWrap quot (quot :: s.toList ++ [quot]) = true := by
      simp [quoteWrap, getLast?_cons_append_singleton]
    show tryCoerce (quot :: s.toList ++ [quot]) = some (.vstr s)
    unfold tryCoerce
    rw [if_pos (by rw [hwrap])]
    simp [quoteInner]
  | anum n =>
    obtain ⟨c, cs, hc, hq, hap, _, _, _⟩ := renderInt_head_safe n
    obtain ⟨hnull, htrue, hfalse⟩ := renderInt_ne_kw n
    have hwq : quoteWrap quot (renderInt n) = false := by
      simp [quoteWrap, hc, hq]
    have hwa : quoteWrap apos (renderInt n) = false := by
      simp [quoteWrap, hc, hap]
    have hne : ¬renderInt n = [] := by rw [hc]; simp
    show tryCoerce (renderInt n) = some (.vnum n)
    unfold tryCoerce
    rw [if_neg (by simp [hwq]), if_neg (by simp [hwa]), if_neg hnull,
      if_neg htrue, if_neg hfalse, if_neg hne, jsNum?_renderInt]
  | abool b => cases b <;> decide
  | anull => decide

/-! ## The top-level splitter on bracketed integer lists -/

/-- The splitter passes over characters that are not quotes, brackets or
braces without changing state, as long as the depth is positive (commas do
not split inside brackets). -/
theorem topScanPlain (u : List Char)
    (h : ∀ c ∈ u, ¬c = quot ∧ ¬c = apos ∧ ¬c = '[' ∧ ¬c = ']' ∧
      ¬c = lbrace ∧ ¬c = rbrace) :
    ∀ (v : List Char) (d : Nat) (cur : List Char) (acc : List (List Char)),
      topSplitAux (u ++ v) none (d + 1) cur acc
        = topSplitAux v none (d + 1) (u.reverse ++ cur) acc := by
  induction u with
  | nil => intro v d cur acc; simp
  | cons c u' ih =>
    intro v d cur acc
    obtain ⟨h1, h2, h3, h4, h5, h6⟩ := h c (by simp)
    rw [List.cons_append]
    simp only [topSplitAux, h1, h2, h3, h4, h5, h6, decide_False, Bool.or_self,
      Bool.false_and, Nat.succ_ne_zero, Bool.and_false, if_false]
    rw [ih (fun d hd => h d (by simp [hd])) v d (c :: cur) acc]
    simp

/-- Digits, minus, comma and space are inert for the splitter at positive
depth. -/
theorem plain_of_num_piece (c : Char)
    (h : c.isDigit = true ∨ c = '-' ∨ c = ',' ∨ c = ' ') :
    ¬c = quot ∧ ¬c = apos ∧ ¬c = '[' ∧ ¬c = ']' ∧ ¬c = lbrace ∧ ¬c = rbrace := by
  refine ⟨?_, ?_, ?_, ?_, ?_, ?_⟩ <;> rintro rfl <;> revert h <;> decide

/-- Characters of a comma-and-space join come from a piece or are the
separator characters. -/
theorem sepJoin_mem (qs : List (List Char)) (c : Char) (hc : c ∈ sepJoin qs) :
    (∃ q ∈ qs, c ∈ q) ∨ c = ',' ∨ c = ' ' := by
  induction qs with
  | nil => simp [sepJoin] at hc
  | cons q qs' ih =>
    cases qs' with
    | nil => exact Or.inl ⟨q, by simp, by simpa [sepJoin] using hc⟩
    | cons q2 qs'' =>
      rw [show sepJoin (q :: q2 :: qs'')
          = q ++ ',' :: ' ' :: sepJoin (q2 :: qs'') from rfl] at hc
      rw [List.mem_append, List.mem_cons, List.mem_cons] at hc
      rcases hc with hq | rfl | rfl | hrest
      · exact Or.inl ⟨q, by simp, hq⟩
      · exact Or.inr (Or.inl rfl)
      · exact Or.inr (Or.inr rfl)
      · rcases ih hrest with ⟨r, hr, hcr⟩ | h | h
        · exact Or.inl ⟨r, by simp at hr ⊢; tauto, hcr⟩
        · exact Or.inr (Or.inl h)
        · exact Or.inr (Or.inr h)

/-- The splitter returns a bracketed plain-character literal as a single
piece. -/
theorem topSplit_bracket_plain (body : List Char)
    (h : ∀ c ∈ body, ¬c = quot ∧ ¬c = apos ∧ ¬c = '[' ∧ ¬c = ']' ∧
      ¬c = lbrace ∧ ¬c = rbrace) :
    topSplit ('[' :: (body ++ [']'])) = some ['[' :: (body ++ [']'])] := by
  calc topSplit ('[' :: (body ++ [']']))
      = topSplitAux (body ++ [']']) none 1 ['['] [] := rfl
    _ = topSplitAux [']'] none 1 (body.reverse ++ ['[']) [] :=
        topScanPlain body h [']'] 0 ['['] []
    _ = some [(']' :: (body.reverse ++ ['['])).reverse] := rfl
    _ = some ['[' :: (body ++ [']'])] := by simp

/-! ## The literal evaluator on rendered integer lists -/

/-- A rendered integer contains no comma. -/
theorem renderInt_ne_comma (n : Int) : ∀ c ∈ renderInt n, ¬c = ',' := by
  intro c hc
  rcases renderInt_chars n c hc with h | h
  · exact fun he => absurd (he ▸ h) (by decide)
  · subst h; decide

/-- The scalar-literal evaluator ignores one leading space. -/
theorem parseAtomLit_cons_space (x : List Char) :
    parseAtomLit (' ' :: x) = parseAtomLit x := by
  simp only [parseAtomLit, trim_cons_space]

/-- The head of a comma-and-space join is the head of its first piece. -/
theorem sepJoin_head? (q : List Char) (qs : List (List Char)) (hq : q ≠ []) :
    (sepJoin (q :: qs)).head? = q.head? := by
  cases qs with
  | nil => rfl
  | cons q2 qs' =>
    show (q ++ ',' :: ' ' :: sepJoin (q2 :: qs')).head? = q.head?
    cases q with
    | nil => exact absurd rfl hq
    | cons a t => rfl

/-- A list whose head is not whitespace does not trim to nothing. -/
theorem trim_ne_nil_of_head (x : List Char) (c : Char) (hh : x.head? = some c)
    (hc : isSpaceChar c = false) : ¬trim x = [] := by
  intro he
  unfold trim at he
  rw [trimL_eq_self x (fun d hd => by
    rw [hh] at hd
    injection hd with hd
    rwa [hd] at hc)] at he
  unfold trimR at he
  rw [List.reverse_eq_nil_iff, List.dropWhile_eq_nil_iff] at he
  have hmem : c ∈ x.reverse := List.mem_reverse.2 (mem_of_head?' x c hh)
  have hfalse := he c hmem
  rw [hc] at hfalse
  exact Bool.false_ne_true hfalse

/-- The scalar-literal evaluator maps the space-prefixed rendered integers
back to their values. -/
theorem mapM_parseAtomLit_spaced (ns : List Int) :
    ((ns.map renderInt).map (fun x => ' ' :: x)).mapM parseAtomLit
      = some (ns.map JAtom.anum) := by
  induction ns with
  | nil => rfl
  | cons n ns' ih =>
    have h1 : parseAtomLit (' ' :: renderInt n) = some (.anum n) := by
      rw [parseAtomLit_cons_space]
      exact parseAtomLit_renderAtom (.anum n) rfl
    rw [List.map_cons, List.map_cons, List.mapM_cons, h1, ih]
    rfl

/-- The element evaluator recovers a rendered integer-list literal. -/
theorem parseElem_intList (ns : List Int) :
    parseElem ('[' :: (sepJoin (ns.map renderInt) ++ [']']))
      = some (.vlist (ns.map .anum)) := by
  cases ns with
  | nil => decide
  | cons n ns' =>
    rw [List.map_cons]
    obtain ⟨c, cs, hcc, hcd⟩ := renderInt_head n
    have hqne : renderInt n ≠ [] := by rw [hcc]; simp
    have hbodyhead :
        (sepJoin (renderInt n :: ns'.map renderInt)).head? = some c := by
      rw [sepJoin_head? _ _ hqne, hcc]
      rfl
    have hcspace : isSpaceChar c = false :=
      renderInt_not_space n c (by rw [hcc]; simp)
    have htrimE : trim ('[' :: (sepJoin (renderInt n :: ns'.map renderInt)
        ++ [']'])) = '[' :: (sepJoin (renderInt n :: ns'.map renderInt)
        ++ [']']) := by
      refine trim_eq_self _ ?_ ?_
      · intro d hd
        injection hd with hd
        subst hd; decide
      · intro d hd
        rw [getLast?_cons_append_singleton] at hd
        injection hd with hd
        subst hd; decide
    have hlast2 : (sepJoin (renderInt n :: ns'.map renderInt) ++ [']']).getLast?
        = some ']' := getLast?_append_singleton _ _
    have htne : ¬trim (sepJoin (renderInt n :: ns'.map renderInt)) = [] :=
      trim_ne_nil_of_head _ c hbodyhead hcspace
    have hsplit : splitComma (sepJoin (renderInt n :: ns'.map renderInt))
        = renderInt n :: (ns'.map renderInt).map (fun x => ' ' :: x) := by
      refine splitComma_sepJoin _ _ ?_
      intro r hr d hd
      rw [List.mem_cons] at hr
      rcases hr with rfl | hr
      · exact renderInt_ne_comma n d hd
      · obtain ⟨m, _, rfl⟩ := List.mem_map.1 hr
        exact renderInt_ne_comma m d hd
    have h1 : parseAtomLit (renderInt n) = some (JAtom.anum n) :=
      parseAtomLit_renderAtom (.anum n) rfl
    simp only [parseElem, htrimE, hlast2, dropLast_append_singleton,
      if_neg htne, hsplit]
    rw [List.mapM_cons, h1, mapM_parseAtomLit_spaced ns']
    rfl

/-- The argument coercion recovers a rendered integer-list literal through
the literal evaluator. -/
theorem coerceParams_intList (ns : List Int) :
    coerceParams ('[' :: (sepJoin (ns.map renderInt) ++ [']']))
      = [.vlist (ns.map .anum)] := by
  have hplain : ∀ ch ∈ sepJoin (ns.map renderInt),
      ¬ch = quot ∧ ¬ch = apos ∧ ¬ch = '[' ∧ ¬ch = ']' ∧
        ¬ch = lbrace ∧ ¬ch = rbrace := by
    intro ch hch
    rcases sepJoin_mem _ ch hch with ⟨r, hr, hcr⟩ | rfl | rfl
    · obtain ⟨m, _, rfl⟩ := List.mem_map.1 hr
      rcases renderInt_chars m ch hcr with h | h
      · exact plain_of_num_piece ch (Or.inl h)
      · exact plain_of_num_piece ch (Or.inr (Or.inl h))
    · exact plain_of_num_piece ',' (by decide)
    · exact plain_of_num_piece ' ' (by decide)
  have htrimE : trim ('[' :: (sepJoin (ns.map renderInt) ++ [']']))
      = '[' :: (sepJoin (ns.map renderInt) ++ [']']) := by
    refine trim_eq_self _ ?_ ?_
    · intro d hd
      injection hd with hd
      subst hd; decide
    · intro d hd
      rw [getLast?_cons_append_singleton] at hd
      injection hd with hd
      subst hd; decide
  have hne : ¬('[' :: (sepJoin (ns.map renderInt) ++ [']'])) = [] := by simp
  have hcont : ('[' :: (sepJoin (ns.map renderInt) ++ [']'])).contains '['
      = true := by simp
  have heval : evalElems ('[' :: (sepJoin (ns.map renderInt) ++ [']']))
      = some [.vlist (ns.map .anum)] := by
    unfold evalElems
    rw [topSplit_bracket_plain _ hplain]
    show List.mapM parseElem ['[' :: (sepJoin (ns.map renderInt) ++ [']'])] = _
    rw [List.mapM_cons, parseElem_intList ns]
    rfl
  simp only [coerceParams, htrimE, if_neg hne, hcont, Bool.true_or, if_true,
    heval]

/-! ## The comma path of the argument coercion on scalar arguments -/

/-- A rendered atom is non-empty. -/
theorem renderAtom_ne_nil (b : JAtom) : renderAtom b ≠ [] := by
  cases b with
  | astr s => simp [renderAtom]
  | anum n =>
    obtain ⟨c, cs, hc, _⟩ := renderInt_head n
    show renderInt n ≠ []
    rw [hc]; simp
  | abool bb => cases bb <;> decide
  | anull => decide

/-- A rendered atom does not start with whitespace. -/
theorem renderAtom_head_not_space (b : JAtom) :
    ∀ c, (renderAtom b).head? = some c → isSpaceChar c = false := by
  cases b with
  | astr s =>
    intro c hc
    rw [show (renderAtom (JAtom.astr s)).head? = some quot from rfl] at hc
    injection hc with hc
    subst hc; decide
  | anum n =>
    intro c hc
    exact renderInt_not_space n c (mem_of_head?' _ c hc)
  | abool bb =>
    cases bb <;> intro c hc <;>
      first
        | (rw [show (renderAtom (JAtom.abool true)).head? = some 't' from rfl]
            at hc
           injection hc with hc
           subst hc; decide)
        | (rw [show (renderAtom (JAtom.abool false)).head? = some 'f' from rfl]
            at hc
           injection hc with hc
           subst hc; decide)
  | anull =>
    intro c hc
    rw [show (renderAtom JAtom.anull).head? = some 'n' from rfl] at hc
    injection hc with hc
    subst hc; decide

/-- A rendered atom does not end with whitespace. -/
theorem renderAtom_last_not_space (b : JAtom) :
    ∀ c, (renderAtom b).getLast? = some c → isSpaceChar c = false := by
  cases b with
  | astr s =>
    intro c hc
    rw [show (renderAtom (JAtom.astr s)).getLast? = some quot from
      getLast?_append_singleton _ _] at hc
    injection hc with hc
    subst hc; decide
  | anum n =>
    intro c hc
    exact renderInt_not_space n c (mem_of_getLast?' _ c hc)
  | abool bb =>
    cases bb <;> intro c hc <;>
      first
        | (rw [show (renderAtom (JAtom.abool true)).getLast? = some 'e' from
            rfl] at hc
           injection hc with hc
           subst hc; decide)
        | (rw [show (renderAtom (JAtom.abool false)).getLast? = some 'e' from
            rfl] at hc
           injection hc with hc
           subst hc; decide)
  | anull =>
    intro c hc
    rw [show (renderAtom JAtom.anull).getLast? = some 'l' from rfl] at hc
    injection hc with hc
    subst hc; decide

/-- The last character of a comma-and-space join of non-empty pieces is the
last character of one of the pieces. -/
theorem sepJoin_getLast?_mem (q : List Char) (qs : List (List Char))
    (h : ∀ r ∈ q :: qs, r ≠ []) :
    ∃ r ∈ q :: qs, (sepJoin (q :: qs)).getLast? = r.getLast? := by
  induction qs generalizing q with
  | nil => exact ⟨q, by simp, rfl⟩
  | cons q2 qs' ih =>
    obtain ⟨r, hr, hrl⟩ := ih q2 (fun r hr => h r (by simp at hr ⊢; tauto))
    refine ⟨r, by simp at hr ⊢; tauto, ?_⟩
    have hne : sepJoin (q2 :: qs') ≠ [] := by
      have hh := sepJoin_head? q2 qs' (h q2 (by simp))
      intro hnil
      rw [hnil] at hh
      cases hq2 : q2 with
      | nil => exact h [] (by simp [← hq2]) rfl
      | cons a tq => rw [hq2] at hh; simp at hh
    show (q ++ ',' :: ' ' :: sepJoin (q2 :: qs')).getLast? = _
    rw [List.getLast?_append_of_ne_nil _ (by simp),
      show (',' :: ' ' :: sepJoin (q2 :: qs'))
        = [','] ++ ([' '] ++ sepJoin (q2 :: qs')) from rfl,
      List.getLast?_append_of_ne_nil _ (by simp [hne]),
      List.getLast?_append_of_ne_nil _ hne, hrl]

/-- Every scalar value is the embedding of a rendered atom. -/
theorem scalar_atom (a : JVal) (hs : isScalarArg a = true)
    (hw : wfArg a = true) :
    ∃ b, renderArg a = renderAtom b ∧ wfAtom b = true ∧ JAtom.toVal b = a := by
  cases a with
  | vstr s => exact ⟨.astr s, rfl, hw, rfl⟩
  | vnum n => exact ⟨.anum n, rfl, rfl, rfl⟩
  | vbool bb => exact ⟨.abool bb, rfl, rfl, rfl⟩
  | vnull => exact ⟨.anull, rfl, rfl, rfl⟩
  | vlist l => exact absurd hs (by simp [isScalarArg])

/-- Every rendered scalar argument is a well-formed rendered atom. -/
theorem renderArg_mem_atom (args : List JVal)
    (hw : ∀ a ∈ args, wfArg a = true) (hs : ∀ a ∈ args, isScalarArg a = true)
    (r : List Char) (hr : r ∈ args.map renderArg) :
    ∃ b, r = renderAtom b ∧ wfAtom b = true := by
  obtain ⟨a, ha, rfl⟩ := List.mem_map.1 hr
  obtain ⟨b, hb, hbw, _⟩ := scalar_atom a (hs a ha) (hw a ha)
  exact ⟨b, hb, hbw⟩

/-- The try-branch coercion maps the space-prefixed rendered scalar
arguments back to their values. -/
theorem filterMap_try_spaced (l : List JVal)
    (hw : ∀ a ∈ l, wfArg a = true) (hs : ∀ a ∈ l, isScalarArg a = true) :
    ((l.map renderArg).map (fun x => ' ' :: x)).filterMap
      (fun t => tryCoerce (trim t)) = l := by
  induction l with
  | nil => rfl
  | cons a l' ih =>
    obtain ⟨b, hb, hbw, hbv⟩ := scalar_atom a (hs a (by simp)) (hw a (by simp))
    have h1 : tryCoerce (trim (' ' :: renderArg a)) = some a := by
      rw [trim_cons_space, hb, trim_renderAtom b, tryCoerce_renderAtom b hbw,
        hbv]
    rw [List.map_cons, List.map_cons]
    simp only [List.filterMap_cons, h1]
    rw [ih (fun x hx => hw x (by simp [hx])) (fun x hx => hs x (by simp [hx]))]

/-- The argument coercion recovers every well-formed rendered scalar
argument list through the comma path. -/
theorem coerceParams_scalars (args : List JVal)
    (hw : ∀ a ∈ args, wfArg a = true) (hs : ∀ a ∈ args, isScalarArg a = true) :
    coerceParams (renderArgs args) = args := by
  cases args with
  | nil => rfl
  | cons a args' =>
    obtain ⟨b, hb, hbw, hbv⟩ := scalar_atom a (hs a (by simp)) (hw a (by simp))
    have hmap : (a :: args').map renderArg
        = renderArg a :: args'.map renderArg := List.map_cons _ _ _
    have hqne : ∀ r ∈ (a :: args').map renderArg, r ≠ [] := by
      intro r hr
      obtain ⟨b', hb', _⟩ := renderArg_mem_atom (a :: args') hw hs r hr
      rw [hb']
      exact renderAtom_ne_nil b'
    have hhead : (sepJoin (renderArg a :: args'.map renderArg)).head?
        = (renderAtom b).head? := by
      rw [sepJoin_head? _ _ (by rw [hb]; exact renderAtom_ne_nil b), hb]
    have htrim : trim (renderArgs (a :: args')) = renderArgs (a :: args') := by
      show trim (sepJoin ((a :: args').map renderArg)) = _
      refine trim_eq_self _ ?_ ?_
      · intro c hc
        rw [hmap] at hc
        rw [hhead] at hc
        exact renderAtom_head_not_space b c hc
      · intro c hc
        rw [hmap] at hc
        obtain ⟨r, hr, hrl⟩ := sepJoin_getLast?_mem _ _
          (by rw [← hmap]; exact hqne)
        rw [hrl] at hc
        obtain ⟨b', hb', _⟩ := renderArg_mem_atom (a :: args') hw hs r
          (by rw [hmap]; exact hr)
        rw [hb'] at hc
        exact renderAtom_last_not_space b' c hc
    have hpne : ¬renderArgs (a :: args') = [] := by
      show ¬sepJoin ((a :: args').map renderArg) = []
      intro hnil
      rw [hmap] at hnil
      have := hhead
      rw [hnil] at this
      have hbn := renderAtom_ne_nil b
      cases hren : renderAtom b with
      | nil => exact hbn hren
      | cons x xs => rw [hren] at this; simp at this
    have hsafe : ∀ c ∈ sepJoin ((a :: args').map renderArg),
        ¬c = '[' ∧ ¬c = lbrace ∧ ¬c = ',' → True := fun _ _ _ => trivial
    have hmemchars : ∀ c ∈ renderArgs (a :: args'),
        ¬c = '[' ∧ ¬c = lbrace := by
      intro c hc
      rcases sepJoin_mem _ c hc with ⟨r, hr, hcr⟩ | rfl | rfl
      · obtain ⟨b', hb', hbw'⟩ := renderArg_mem_atom (a :: args') hw hs r hr
        rw [hb'] at hcr
        have := renderAtom_chars b' hbw' c hcr
        tauto
      · exact ⟨by decide, by decide⟩
      · exact ⟨by decide, by decide⟩
    have hcont1 : (renderArgs (a :: args')).contains '[' = false := by
      have : '[' ∉ renderArgs (a :: args') :=
        fun hmem => (hmemchars '[' hmem).1 rfl
      simpa using this
    have hcont2 : (renderArgs (a :: args')).contains lbrace = false := by
      have : lbrace ∉ renderArgs (a :: args') :=
        fun hmem => (hmemchars lbrace hmem).2 rfl
      simpa using this
    have hsplit : splitComma (renderArgs (a :: args'))
        = renderArg a :: (args'.map renderArg).map (fun x => ' ' :: x) := by
      show splitComma (sepJoin ((a :: args').map renderArg)) = _
      rw [hmap]
      refine splitComma_sepJoin _ _ ?_
      intro r hr c hc
      obtain ⟨b', hb', hbw'⟩ := renderArg_mem_atom (a :: args') hw hs r
        (by rw [hmap]; exact hr)
      rw [hb'] at hc
      exact (renderAtom_chars b' hbw' c hc).1
    have h1 : tryCoerce (trim (renderArg a)) = some a := by
      rw [hb, trim_renderAtom b, tryCoerce_renderAtom b hbw, hbv]
    simp only [coerceParams, htrim, if_neg hpne, hcont1, hcont2,
      Bool.or_self, Bool.false_eq_true, if_false, hsplit,
      List.filterMap_cons, h1]
    rw [filterMap_try_spaced args' (fun x hx => hw x (by simp [hx]))
      (fun x hx => hs x (by simp [hx]))]

/-! ## The registered names and the full parser round trip -/

/-- Every registered tool name is a non-empty identifier of word
characters. -/
theorem tools_wordlike : ∀ nm ∈ AVAILABLE_TOOLS,
    nm.toList ≠ [] ∧ ∀ c ∈ nm.toList, isWordChar c = true := by decide

/-- A well-formed rendered argument list never contains a closing
parenthesis, so the scan capture takes it whole. -/
theorem renderArgs_no_rparen (args : List JVal)
    (hw : ∀ a ∈ args, wfArg a = true)
    (hsig : (∀ a ∈ args, isScalarArg a = true) ∨
      ∃ ns : List Int, args = [JVal.vlist (ns.map JAtom.anum)]) :
    ')' ∉ renderArgs args := by
  intro hmem
  rcases hsig with hsc | ⟨ns, rfl⟩
  · rcases sepJoin_mem _ _ hmem with ⟨r, hr, hcr⟩ | h | h
    · obtain ⟨b, hb, hbw⟩ := renderArg_mem_atom args hw hsc _ hr
      rw [hb] at hcr
      exact (renderAtom_chars b hbw _ hcr).2.1 rfl
    · exact absurd h (by decide)
    · exact absurd h (by decide)
  · have hmem' : (')' : Char)
        ∈ '[' :: (sepJoin ((ns.map JAtom.anum).map renderAtom) ++ [']']) :=
      hmem
    rw [List.mem_cons, List.mem_append, List.mem_singleton] at hmem'
    rcases hmem' with h | h | h
    · exact absurd h (by decide)
    · rcases sepJoin_mem _ _ h with ⟨r, hr, hcr⟩ | hx | hx
      · obtain ⟨b', hb', rfl⟩ := List.mem_map.1 hr
        obtain ⟨m, _, rfl⟩ := List.mem_map.1 hb'
        rcases renderInt_chars m _ hcr with hd | hd
        · exact absurd hd (by decide)
        · exact absurd hd (by decide)
      · exact absurd hx (by decide)
      · exact absurd hx (by decide)
    · exact absurd h (by decide)

/-- C1.  For every registered tool name and every supported argument list —
scalar values (double-quoted strings of parser-neutral characters, integers,
booleans, null) in any number, or a single integer-list literal as produced
by the synthesiser — parsing the exact call notation `name(args)` yields one
ParsedCall with that name and those argument values in order; and an
unregistered identifier such as `foo(1,2)` yields no call.  (The spec's
stronger reading — recovery from ANY string containing `name(args)` — is
refuted separately: a word character directly before the name absorbs the
identifier, see the counterexample.) -/
theorem parseToolCall_roundtrip :
    (∀ (nm : String) (args : List JVal), nm ∈ AVAILABLE_TOOLS →
      (∀ a ∈ args, wfArg a = true) →
      ((∀ a ∈ args, isScalarArg a = true) ∨
        ∃ ns : List Int, args = [JVal.vlist (ns.map JAtom.anum)]) →
      parseToolCall (nm ++ "(" ++ String.mk (renderArgs args) ++ ")")
        = [⟨nm, args⟩])
    ∧ parseToolCall "foo(1,2)" = [] := by
  constructor
  · intro nm args hnm hw hsig
    obtain ⟨hne, hword⟩ := tools_wordlike nm hnm
    have hnorp : ')' ∉ renderArgs args := renderArgs_no_rparen args hw hsig
    have hcoerce : coerceParams (renderArgs args) = args := by
      rcases hsig with hsc | ⟨ns, rfl⟩
      · exact coerceParams_scalars args hw hsc
      · show coerceParams
            ('[' :: (sepJoin ((ns.map JAtom.anum).map renderAtom) ++ [']']))
          = _
        rw [show (ns.map JAtom.anum).map renderAtom = ns.map renderInt from by
          rw [List.map_map]
          rfl]
        exact coerceParams_intList ns
    have htl : (nm ++ "(" ++ String.mk (renderArgs args) ++ ")").toList
        = nm.toList ++ '(' :: (renderArgs args ++ [')']) := by
      show (nm.toList ++ ['('] ++ renderArgs args ++ [')']) = _
      simp
    unfold parseToolCall parseToolCallL
    rw [htl]
    rw [show (nm.toList ++ '(' :: (renderArgs args ++ [')'])).length + 1
        = (nm.toList.length + (renderArgs args).length + 1) + 2 from by
      simp only [List.length_append, List.length_cons, List.length_nil]
      omega]
    rw [parseCallsAux_shape _ nm.toList (renderArgs args) hne hword hnorp]
    have hf : (if String.mk nm.toList ∈ AVAILABLE_TOOLS
        then some (⟨String.mk nm.toList, coerceParams (renderArgs args)⟩
          : ParsedCall)
        else none) = some ⟨nm, args⟩ := by
      rw [show String.mk nm.toList = nm from rfl, if_pos hnm, hcoerce]
    simp only [List.filterMap_cons, hf, List.filterMap_nil]
  · decide

/-- C1 (witness).  A scalar call and an integer-list call round-trip at
concrete inputs, and the unregistered `foo(1,2)` parses to nothing. -/
theorem parseToolCall_roundtrip_witness :
    parseToolCall "createTodo(\"buy milk\", \"high\")"
        = [⟨"createTodo", [.vstr "buy milk", .vstr "high"]⟩]
      ∧ parseToolCall "deleteTodosByIds([4, 9])"
        = [⟨"deleteTodosByIds", [.vlist [.anum 4, .anum 9]]⟩]
      ∧ parseToolCall "foo(1,2)" = [] := by
  refine ⟨?_, ?_, parseToolCall_roundtrip.2⟩
  · have h := parseToolCall_roundtrip.1 "createTodo"
      [.vstr "buy milk", .vstr "high"] (by decide) (by decide)
      (Or.inl (by decide))
    have hs : "createTodo" ++ "(" ++ String.mk
        (renderArgs [.vstr "buy milk", .vstr "high"]) ++ ")"
        = "createTodo(\"buy milk\", \"high\")" := by decide
    rw [← hs]
    exact h
  · have h := parseToolCall_roundtrip.1 "deleteTodosByIds"
      [.vlist [.anum 4, .anum 9]] (by decide) (by decide)
      (Or.inr ⟨[4, 9], by decide⟩)
    have hs : "deleteTodosByIds" ++ "(" ++ String.mk
        (renderArgs [.vlist [.anum 4, .anum 9]]) ++ ")"
        = "deleteTodosByIds([4, 9])" := by decide
    rw [← hs]
    exact h

/-- C1 (counterexample to the claim as stated).  The text
`xgetAllTodos()` contains the registered call span `getAllTodos()`, yet the
parser emits nothing for it: the scan's identifier capture extends left
through word characters, producing the unregistered name `xgetAllTodos`. -/
theorem parse_containing_text_cex :
    containsSub ("getAllTodos()".toList) ("xgetAllTodos()".toList) = true
      ∧ "getAllTodos" ∈ AVAILABLE_TOOLS
      ∧ parseToolCall "xgetAllTodos()" = [] :=
  ⟨by decide, by decide, by decide⟩

/-- C7.  A well-formed integer-list literal coerces to the ordered list of
its integers through the literal evaluator, for every integer list; the
concrete `[1, 2, 3]` behaves accordingly inside a full call; and a
malformed list literal does not raise but falls back to the reduced
catch-branch coercion — which, unlike the try branch used for non-bracketed
argument lists, keeps single-quoted tokens verbatim. -/
theorem list_literal_parse :
    (∀ ns : List Int,
      coerceParams ('[' :: (sepJoin (ns.map renderInt) ++ [']']))
        = [JVal.vlist (ns.map JAtom.anum)])
    ∧ parseToolCall "deleteTodosByIds([1, 2, 3])"
        = [⟨"deleteTodosByIds", [.vlist [.anum 1, .anum 2, .anum 3]]⟩]
    ∧ parseToolCall "createTodo('x', [)"
        = [⟨"createTodo", [.vstr "'x'", .vstr "["]⟩] :=
  ⟨coerceParams_intList, by decide, by decide⟩

/-- C7 (counterexample to the claim as stated).  On the malformed list
argument `'x', [` the parser falls back to the catch-branch coercion, which
keeps the single-quoted token as the literal string `'x'`; the try-branch
coercion used for non-bracketed argument lists would instead strip the
quotes and produce `x`, so the fallback is NOT the same coercion. -/
theorem list_literal_fallback_cex :
    parseToolCall "createTodo('x', [)"
        = [⟨"createTodo", [.vstr "'x'", .vstr "["]⟩]
      ∧ (splitComma (trim ("'x', [".toList))).filterMap
          (fun t => tryCoerce (trim t)) = [.vstr "x", .vstr "["] :=
  ⟨by decide, by decide⟩

end TodoApp
